import Mathlib

/-!
Verification of the sudoku solver in `sudoku.py` (repository tayfun/sudoku).

The Python program represents a puzzle as a 9×9 list of lists whose entries are
either the string `"_"` (an untouched blank cell), a digit string `"1"`..`"9"`
(a cell with a fixed value, either given or committed), or a Python `set` of
digit strings (the candidate set last computed for the cell).  We embed the
three kinds of entry as the inductive type `Cell` below, with digit strings
relabelled as natural numbers.

The solver's control flow:
  * `check(row, column)` returns immediately when the cell already holds a
    digit; otherwise it computes the candidate set (the cell's stored set, or
    the full digit set for `"_"`, minus every digit found in the row, the
    column and the containing 3×3 block), commits a unique candidate and then
    calls `self.solve()` (whose return value is discarded — only the mutation
    of `self` by `calculate_sets` persists, while an exception propagates),
    raises `SudokuContradiction` on an empty candidate set, and otherwise
    stores the candidate set in the cell.
  * `calculate_sets` runs `check` over all 81 cells in row-major order.
  * `constraint_prop` scans row-major for the first cell holding a set, tries
    each of its values on an independent deep copy (returning the first
    successful recursive solve), and raises when all values fail; with no
    set-holding cell it returns the grid itself.
  * `solve` is `calculate_sets` followed by `constraint_prop`.

Exceptions are embedded as `Except Unit`; the recursion (which terminates
because every recursive call strictly decreases the number of non-fixed
cells) is embedded with a fuel parameter, `none` meaning fuel ran out.
Fuel 82 always suffices (theorem `solve_adeq`), since a grid has at most
81 non-fixed cells.
-/

set_option maxRecDepth 8000
set_option maxHeartbeats 4000000

namespace SudokuPy

/-- One entry of the 9×9 puzzle array: the blank marker `"_"`, a digit
string (relabelled as a `Nat`), or a Python set of digit strings. -/
inductive Cell where
  | blank : Cell
  | fixed : Nat → Cell
  | cands : Finset Nat → Cell
deriving DecidableEq

abbrev Grid := Fin 9 → Fin 9 → Cell

abbrev Pos := Fin 9 × Fin 9

/-- Result of a solver phase: `none` = out of fuel (an artefact of the
embedding), `some (Except.error ())` = `SudokuContradiction` raised,
`some (Except.ok g)` = normal completion with grid `g`. -/
abbrev SRes := Option (Except Unit Grid)

instance : DecidableEq (Except Unit Grid) := fun a b =>
  match a, b with
  | Except.error (), Except.error () => isTrue rfl
  | Except.ok x, Except.ok y =>
    if h : x = y then isTrue (by rw [h]) else
      isFalse (fun he => h (by injection he))
  | Except.error _, Except.ok _ => isFalse (fun he => Except.noConfusion he)
  | Except.ok _, Except.error _ => isFalse (fun he => Except.noConfusion he)

/-- Pointwise Boolean equality test of two grids (used to evaluate the
solver on concrete grids inside proofs). -/
def gridEqB (g h : Grid) : Bool :=
  (List.finRange 9).all fun r => (List.finRange 9).all fun c => g r c == h r c

/-- Boolean equality test of two phase results. -/
def sresEqB : SRes → SRes → Bool
  | none, none => true
  | some (Except.error ()), some (Except.error ()) => true
  | some (Except.ok g), some (Except.ok h) => gridEqB g h
  | _, _ => false

/-- The test `isinstance(cell, set)` of the source. -/
def Cell.isSet : Cell → Bool
  | Cell.cands _ => true
  | _ => false

/-- The cell holds a digit (it is neither `"_"` nor a candidate set). -/
def Cell.isFixed : Cell → Bool
  | Cell.fixed _ => true
  | _ => false

/-- The set `self.digits` of digit strings `"1"`..`"9"`. -/
def fullDigits : Finset Nat := Finset.Icc 1 9

/-- The base set `check` subtracts from: `self.digits` for `"_"`, the stored
set for a set-holding cell, and nothing (early `return`) for a digit cell. -/
def cellBase : Cell → Option (Finset Nat)
  | Cell.blank => some fullDigits
  | Cell.cands s => some s
  | Cell.fixed _ => none

/-- The digit held by a cell, if any. -/
def cellDigit : Cell → Option Nat
  | Cell.fixed d => some d
  | _ => none

/-- The mutation `self.puzzle[row][column] = v` of one entry. -/
def setCell (g : Grid) (r c : Fin 9) (v : Cell) : Grid :=
  fun i j => if i = r ∧ j = c then v else g i j

/-- Index `row_start + a` of a cell of the 3×3 block, with the source's
`row_start = row if row % 3 == 0 else row - row % 3`. -/
def blockIdx (r : Fin 9) (a : Fin 3) : Fin 9 :=
  ⟨(if r.val % 3 = 0 then r.val else r.val - r.val % 3) + a.val, by
    have h1 := r.isLt; have h2 := a.isLt; split <;> omega⟩

/-- The cells visited by the first loop of `check`: for `a` in `0..8` it
inspects `puzzle[a][column]` and `puzzle[row][a]`. -/
def rowColScan (g : Grid) (r c : Fin 9) : List Cell :=
  (List.finRange 9).flatMap fun a => [g a c, g r a]

/-- The cells visited by the block loop of `check`. -/
def blockScan (g : Grid) (r c : Fin 9) : List Cell :=
  (List.finRange 3).flatMap fun a =>
    (List.finRange 3).map fun b => g (blockIdx r a) (blockIdx c b)

/-- The set of digits held by the cells of a list.  The source adds the raw
entries (digit strings and possibly `"_"`) to `impossible_set` and then
discards `"_"`; collecting exactly the digits of the fixed cells is the
same set. -/
def fixedDigitsIn (l : List Cell) : Finset Nat :=
  (l.filterMap cellDigit).toFinset

/-- The `impossible_set` of `check(row, column)` after the `discard("_")`. -/
def impossibleSet (g : Grid) (r c : Fin 9) : Finset Nat :=
  fixedDigitsIn (rowColScan g r c ++ blockScan g r c)

/-- The set `possible_set = cell.difference(impossible_set)` (empty for a digit
cell, for which `check` returned before this point). -/
def possibleSet (g : Grid) (r c : Fin 9) : Finset Nat :=
  (cellBase (g r c)).getD ∅ \ impossibleSet g r c

/-- All 81 positions in row-major order (the iteration order of
`calculate_sets` and of `constraint_prop`). -/
def positions : List Pos :=
  (List.finRange 9).flatMap fun r => (List.finRange 9).map fun c => (r, c)

/-- The elements of a candidate set as a list, in ascending order.
`for value in column` iterates a Python set of digit strings in an
implementation-defined order; following the spec's design note we fix
ascending digit order as the canonical iteration order. -/
def candList (s : Finset Nat) : List Nat :=
  (List.range (s.sup id + 1)).filter (fun v => v ∈ s)

/-- The body of `check(row, column)`, parameterised by the `self.solve()`
call made after a commitment (`slvK` returns the state of `self` after that
nested solve's `calculate_sets`, since the value `constraint_prop` returns
to `check` is discarded). -/
def checkV (slvK : Grid → SRes) (g : Grid) (r c : Fin 9) : SRes :=
  match cellBase (g r c) with
  | none => some (Except.ok g)
  | some _ =>
    if h : (possibleSet g r c).card = 1 then
      slvK (setCell g r c
        (Cell.fixed ((possibleSet g r c).min' (Finset.card_pos.mp (by omega)))))
    else if possibleSet g r c = ∅ then some (Except.error ())
    else some (Except.ok (setCell g r c (Cell.cands (possibleSet g r c))))

/-- The loop of `calculate_sets`: run `chk` over the listed positions,
threading the grid; an exception aborts the loop. -/
def calcGoGen (chk : Grid → Fin 9 → Fin 9 → SRes) : Grid → List Pos → SRes
  | g, [] => some (Except.ok g)
  | g, p :: ps =>
    match chk g p.1 p.2 with
    | none => none
    | some (Except.error e) => some (Except.error e)
    | some (Except.ok g') => calcGoGen chk g' ps

/-- The `for value in column: ... else: raise` loop of `constraint_prop`:
try each value on an independent copy; first success wins; exhaustion
raises. -/
def tryValsGen (slv : Grid → SRes) (g : Grid) (r c : Fin 9) : List Nat → SRes
  | [] => some (Except.error ())
  | v :: vs =>
    match slv (setCell g r c (Cell.fixed v)) with
    | none => none
    | some (Except.ok h) => some (Except.ok h)
    | some (Except.error _) => tryValsGen slv g r c vs

/-- The scan of `constraint_prop`: the first set-holding cell in row-major
order is branched on; with no such cell the grid itself is returned.
(The iteration order of a Python set of digit strings is
implementation-defined; we fix ascending digit order.) -/
def cpGoGen (slv : Grid → SRes) : Grid → List Pos → SRes
  | g, [] => some (Except.ok g)
  | g, p :: ps =>
    match g p.1 p.2 with
    | Cell.cands s => tryValsGen slv g p.1 p.2 (candList s)
    | _ => cpGoGen slv g ps

def calcSetsV (slvK : Grid → SRes) (g : Grid) : SRes :=
  calcGoGen (checkV slvK) g positions

def cpV (slv : Grid → SRes) (g : Grid) : SRes :=
  cpGoGen slv g positions

/-- Fuel-indexed pair `(solve, solveKeep)`.  `solve` is
`calculate_sets` followed by `constraint_prop` and returns the latter's
value; `solveKeep` is the same computation as observed by a caller of
`self.solve()` that discards the returned value: on success the state of
`self` is the grid left by `calculate_sets`. -/
def solvePair : Nat → (Grid → SRes) × (Grid → SRes)
  | 0 => (fun _ => none, fun _ => none)
  | n + 1 =>
    let slv := (solvePair n).1
    let slvK := (solvePair n).2
    ( fun g =>
        match calcSetsV slvK g with
        | none => none
        | some (Except.error e) => some (Except.error e)
        | some (Except.ok g₂) => cpV slv g₂,
      fun g =>
        match calcSetsV slvK g with
        | none => none
        | some (Except.error e) => some (Except.error e)
        | some (Except.ok g₂) =>
          match cpV slv g₂ with
          | none => none
          | some (Except.error e) => some (Except.error e)
          | some (Except.ok _) => some (Except.ok g₂) )

def solveF (n : Nat) : Grid → SRes := (solvePair n).1

def solveKeepF (n : Nat) : Grid → SRes := (solvePair n).2

/-- The method `check(row, column)` at fuel `n`. -/
def checkF (n : Nat) : Grid → Fin 9 → Fin 9 → SRes := checkV (solveKeepF n)

/-- The method `calculate_sets` at fuel `n`. -/
def calcSetsF (n : Nat) : Grid → SRes := calcSetsV (solveKeepF n)

/-- The method `constraint_prop` at fuel `n`. -/
def constraintPropF (n : Nat) : Grid → SRes := cpV (solveF n)

/-- The method `solve` with fuel that always suffices (a grid has at most 81 non-fixed
cells and every recursive call strictly decreases their number). -/
def solve (g : Grid) : SRes := solveF 82 g

/-! ### Instrumentation: did a pass compute an empty candidate set on this
grid instance?

`calculate_sets` can raise either because a `check` on the grid it runs on
computed an empty `possible_set`, or because a commitment's nested
`self.solve()` raised out of its `constraint_prop` search (whose failures
happen on deep copies).  The `Saw` functions mirror the recursion of the
plain functions and return `true` exactly when some `check` executed on
*this* grid instance (including the re-propagation passes triggered by
commitments, which also run on `self`) computed an empty candidate set;
flags of the search's deep copies are not merged. -/

def checkSawV (slvSaw : Grid → Bool) (g : Grid) (r c : Fin 9) : Bool :=
  match cellBase (g r c) with
  | none => false
  | some _ =>
    if h : (possibleSet g r c).card = 1 then
      slvSaw (setCell g r c
        (Cell.fixed ((possibleSet g r c).min' (Finset.card_pos.mp (by omega)))))
    else if possibleSet g r c = ∅ then true
    else false

def calcGoSawGen (chkSaw : Grid → Fin 9 → Fin 9 → Bool)
    (chk : Grid → Fin 9 → Fin 9 → SRes) : Grid → List Pos → Bool
  | _, [] => false
  | g, p :: ps =>
    chkSaw g p.1 p.2 ||
      match chk g p.1 p.2 with
      | some (Except.ok g') => calcGoSawGen chkSaw chk g' ps
      | _ => false

/-- Flag of the `self.solve()` call: a nested solve computes candidate sets
on `self` only during its `calculate_sets` (the search of its
`constraint_prop` works on deep copies). -/
def solveSawF : Nat → Grid → Bool
  | 0, _ => false
  | n + 1, g => calcGoSawGen (checkSawV (solveSawF n)) (checkV (solveKeepF n)) g positions

def checkSawF (n : Nat) : Grid → Fin 9 → Fin 9 → Bool := checkSawV (solveSawF n)

def calcSetsSawF (n : Nat) (g : Grid) : Bool :=
  calcGoSawGen (checkSawF n) (checkF n) g positions

/-! ### `validate` -/

/-- A diagnostic line printed by `validate`. -/
inductive VMsg where
  | rowE : Nat → VMsg
  | colE : Nat → VMsg
deriving DecidableEq

/-- The count `len(set(cells))`. -/
def distinctCount (l : List Cell) : Nat := l.toFinset.card

def rowCellsL (g : Grid) (i : Fin 9) : List Cell :=
  (List.finRange 9).map fun j => g i j

def colCellsL (g : Grid) (j : Fin 9) : List Cell :=
  (List.finRange 9).map fun i => g i j

def squareCellsL (g : Grid) (a b : Fin 3) : List Cell :=
  (List.finRange 3).flatMap fun i =>
    (List.finRange 3).map fun j =>
      g ⟨3 * a.val + i.val, by have := a.isLt; have := i.isLt; omega⟩
        ⟨3 * b.val + j.val, by have := b.isLt; have := j.isLt; omega⟩

/-- The method `validate`: the messages printed and whether the call raised.  Row and
column failures are printed; on the first invalid 3×3 square the statement
`print("ERROR: Did not validate!! Square %s %s \n" % row_start, column_start)`
applies a two-placeholder format string to the single argument `row_start`,
a `TypeError` raised while evaluating `print`'s first argument, so no square
message is ever printed and the call crashes if and only if some square is
invalid. -/
def validate (g : Grid) : List VMsg × Bool :=
  let rowMsgs := ((List.finRange 9).filter
    (fun i => distinctCount (rowCellsL g i) != 9)).map fun i => VMsg.rowE i.val
  let colMsgs := ((List.finRange 9).filter
    (fun j => distinctCount (colCellsL g j) != 9)).map fun j => VMsg.colE j.val
  let crashed := ((List.finRange 3).flatMap fun a =>
    (List.finRange 3).map fun b => (a, b)).any
      fun q => distinctCount (squareCellsL g q.1 q.2) != 9
  (rowMsgs ++ colMsgs, crashed)

/-! ### Units, peers and grid predicates -/

/-- Two distinct positions share a row, a column, or a 3×3 block. -/
def peers (p q : Pos) : Prop :=
  p ≠ q ∧ (p.1 = q.1 ∨ p.2 = q.2 ∨
    (p.1.val / 3 = q.1.val / 3 ∧ p.2.val / 3 = q.2.val / 3))

instance (p q : Pos) : Decidable (peers p q) :=
  inferInstanceAs (Decidable (_ ∧ (_ ∨ _ ∨ (_ ∧ _))))

def rowUnit (i : Fin 9) : List Pos := (List.finRange 9).map fun j => (i, j)

def colUnit (j : Fin 9) : List Pos := (List.finRange 9).map fun i => (i, j)

def blockUnit (a b : Fin 3) : List Pos :=
  (List.finRange 3).flatMap fun i =>
    (List.finRange 3).map fun j =>
      (⟨3 * a.val + i.val, by have := a.isLt; have := i.isLt; omega⟩,
       ⟨3 * b.val + j.val, by have := b.isLt; have := j.isLt; omega⟩)

/-- The 27 units: 9 rows, 9 columns, 9 blocks. -/
def units27 : List (List Pos) :=
  ((List.finRange 9).map rowUnit) ++ ((List.finRange 9).map colUnit) ++
    ((List.finRange 3).flatMap fun a => (List.finRange 3).map fun b => blockUnit a b)

/-- Every cell holds a digit. -/
def complete (g : Grid) : Prop := ∀ p : Pos, (g p.1 p.2).isFixed = true

/-- Each of the 27 units contains each digit 1–9 exactly once. -/
def gridValid (g : Grid) : Prop :=
  ∀ u ∈ units27, ∀ d ∈ fullDigits,
    ((u.map fun p => g p.1 p.2).count (Cell.fixed d)) = 1

/-- No two cells of a unit hold the same digit. -/
def gridConsistent (g : Grid) : Prop :=
  ∀ p q : Pos, peers p q → (g p.1 p.2).isFixed = true → g p.1 p.2 ≠ g q.1 q.2

def cellDigitOK : Cell → Bool
  | Cell.fixed d => decide (d ∈ fullDigits)
  | _ => true

/-- Every digit held by a cell is one of `1`..`9`. -/
def fixOK (g : Grid) : Prop := ∀ p : Pos, cellDigitOK (g p.1 p.2) = true

def cellCandsOK : Cell → Bool
  | Cell.cands s => decide (s ⊆ fullDigits)
  | _ => true

/-- Every stored candidate set contains only digits `1`..`9`. -/
def candsOK (g : Grid) : Prop := ∀ p : Pos, cellCandsOK (g p.1 p.2) = true

/-- The grid is as the parser produces it: blanks and digits only. -/
def pristine (g : Grid) : Prop :=
  ∀ p : Pos, g p.1 p.2 = Cell.blank ∨ (g p.1 p.2).isFixed = true

/-- Every digit cell of `g` holds the identical digit in `T`. -/
def agreesFixed (g T : Grid) : Prop :=
  ∀ (p : Pos) (d : Nat), g p.1 p.2 = Cell.fixed d → T p.1 p.2 = Cell.fixed d

/-- Grid `T` is compatible with the current state `g` of the search: it extends
the digits of `g` and picks its digits from the stored candidate sets. -/
def admits (g T : Grid) : Prop :=
  agreesFixed g T ∧
    ∀ (p : Pos) (s : Finset Nat), g p.1 p.2 = Cell.cands s →
      ∃ d ∈ s, T p.1 p.2 = Cell.fixed d

/-- The number of non-digit cells (the recursion measure of the solver). -/
def unknowns (g : Grid) : Nat :=
  ((Finset.univ : Finset Pos).filter fun p => (g p.1 p.2).isFixed = false).card

instance (g : Grid) : Decidable (complete g) :=
  inferInstanceAs (Decidable (∀ p : Pos, (g p.1 p.2).isFixed = true))

instance (g : Grid) : Decidable (gridValid g) :=
  inferInstanceAs (Decidable (∀ u ∈ units27, ∀ d ∈ fullDigits,
    ((u.map fun p => g p.1 p.2).count (Cell.fixed d)) = 1))

instance (g : Grid) : Decidable (gridConsistent g) :=
  inferInstanceAs (Decidable (∀ p q : Pos, peers p q →
    (g p.1 p.2).isFixed = true → g p.1 p.2 ≠ g q.1 q.2))

instance (g : Grid) : Decidable (fixOK g) :=
  inferInstanceAs (Decidable (∀ p : Pos, cellDigitOK (g p.1 p.2) = true))

instance (g : Grid) : Decidable (candsOK g) :=
  inferInstanceAs (Decidable (∀ p : Pos, cellCandsOK (g p.1 p.2) = true))

instance (g : Grid) : Decidable (pristine g) :=
  inferInstanceAs (Decidable (∀ p : Pos,
    g p.1 p.2 = Cell.blank ∨ (g p.1 p.2).isFixed = true))

/-- Cell `p` was processed by a completed propagation pass: it is not blank,
and a candidate set stored in it excludes every digit held by a peer. -/
def pGood (g : Grid) (p : Pos) : Prop :=
  g p.1 p.2 ≠ Cell.blank ∧
    ∀ s, g p.1 p.2 = Cell.cands s →
      ∀ q : Pos, peers p q → ∀ d, g q.1 q.2 = Cell.fixed d → d ∉ s

/-! ### The spec's candidate-set formula (for claim C4) -/

/-- Modelled from the spec's words (§4.1, claim C4): the union of all Fixed
digits in the cell's row, its column, and the block whose origin is
`(row - row%3, column - column%3)`. -/
def specUnion (g : Grid) (r c : Fin 9) : Finset Nat :=
  fixedDigitsIn ((List.finRange 9).map fun a => g r a) ∪
    fixedDigitsIn ((List.finRange 9).map fun a => g a c) ∪
    fixedDigitsIn ((List.finRange 3).flatMap fun a =>
      (List.finRange 3).map fun b =>
        g ⟨r.val - r.val % 3 + a.val, by have := r.isLt; have := a.isLt; omega⟩
          ⟨c.val - c.val % 3 + b.val, by have := c.isLt; have := b.isLt; omega⟩)

/-- Modelled from the spec's words (claim C4): `{1..9}` minus `specUnion`. -/
def specCandidates (g : Grid) (r c : Fin 9) : Finset Nat :=
  fullDigits \ specUnion g r c

/-! ### Concrete grids used by counterexamples and witnesses -/

/-- A complete, fully consistent grid. -/
def gVal : Grid := fun r c =>
  Cell.fixed ((3 * (r.val % 3) + r.val / 3 + c.val) % 9 + 1)

/-- The grid `gVal` with cell (0,0) blanked. -/
def gVal0 : Grid := fun r c =>
  if r.val = 0 ∧ c.val = 0 then Cell.blank else gVal r c

/-- Every cell fixed to 1: a complete but invalid grid. -/
def gAll1 : Grid := fun _ _ => Cell.fixed 1

/-- Every cell fixed to 2: a complete but invalid grid. -/
def gAll2 : Grid := fun _ _ => Cell.fixed 2

/-- Every cell fixed to 3: a complete but invalid grid. -/
def gAll3 : Grid := fun _ _ => Cell.fixed 3

/-- A stored candidate set `{1, 5}` at (0,0), all other cells blank. -/
def gC4x : Grid := fun r c =>
  if r.val = 0 ∧ c.val = 0 then Cell.cands {1, 5} else Cell.blank

/-- A grid on which `calculate_sets` raises although no candidate set
computed on it is empty: the commitment of `5` at (0,0) triggers a nested
`self.solve()` whose search exhausts the unsatisfiable trio of `{1, 2}`
cells in row 8 on deep copies. -/
def gC6x : Grid := fun r c =>
  if r.val = 0 ∧ c.val = 0 then Cell.cands {5}
  else if r.val = 8 ∧ c.val ≤ 2 then Cell.cands {1, 2}
  else Cell.fixed 9

/-- An empty candidate set stored at (0,0), all other cells fixed. -/
def gC6w : Grid := fun r c =>
  if r.val = 0 ∧ c.val = 0 then Cell.cands ∅ else Cell.fixed 9

/-- A singleton candidate set `{7}` at (0,0), all other cells fixed to 9:
`check` at (0,0) commits `7`. -/
def gC5w : Grid := fun r c =>
  if r.val = 0 ∧ c.val = 0 then Cell.cands {7} else Cell.fixed 9

/-- The grid `gC5w` with the commitment applied. -/
def gC5wc : Grid := setCell gC5w 0 0 (Cell.fixed 7)

/-- A candidate pair `{4, 7}` at (0,0), all other cells of `gVal` kept:
the search branches on (0,0). -/
def gC7w : Grid := fun r c =>
  if r.val = 0 ∧ c.val = 0 then Cell.cands {4, 7} else gVal r c

/-- A candidate pair `{3, 9}` at (0,0), all other cells fixed to 9. -/
def gC10w : Grid := fun r c =>
  if r.val = 0 ∧ c.val = 0 then Cell.cands {3, 9} else Cell.fixed 9

/-- A singleton candidate `{5}` at (0,0) and an empty candidate set at
(0,1): branching on (0,0) fails, because re-propagation on the copy finds
the empty set at (0,1). -/
def gC7f : Grid := fun r c =>
  if r.val = 0 ∧ c.val = 0 then Cell.cands {5}
  else if r.val = 0 ∧ c.val = 1 then Cell.cands ∅
  else Cell.fixed 9

/-! ### Statements threaded through the fuel induction -/

/-- Adequacy of `solveF` at fuel `n`: enough fuel means no `none`, and a
returned grid has no more unknown cells than the input. -/
def SVAdeq (n : Nat) : Prop :=
  ∀ g, unknowns g < n →
    (∃ x, solveF n g = some x) ∧
      ∀ h, solveF n g = some (Except.ok h) → unknowns h ≤ unknowns g

/-- Adequacy of `solveKeepF` at fuel `n`. -/
def SKAdeq (n : Nat) : Prop :=
  ∀ g, unknowns g < n →
    (∃ x, solveKeepF n g = some x) ∧
      ∀ h, solveKeepF n g = some (Except.ok h) → unknowns h ≤ unknowns g

/-- A successful `solveF` never unfixes or changes a digit cell. -/
def SVMono (n : Nat) : Prop :=
  ∀ g h, solveF n g = some (Except.ok h) →
    ∀ (p : Pos) (d : Nat), g p.1 p.2 = Cell.fixed d → h p.1 p.2 = Cell.fixed d

/-- A successful `solveKeepF` never unfixes or changes a digit cell. -/
def SKMono (n : Nat) : Prop :=
  ∀ g h, solveKeepF n g = some (Except.ok h) →
    ∀ (p : Pos) (d : Nat), g p.1 p.2 = Cell.fixed d → h p.1 p.2 = Cell.fixed d

/-- The well-formedness invariant of the solving state: no duplicated digit
in any unit, and only digits `1`..`9` in cells and candidate sets. -/
def Pre (g : Grid) : Prop := gridConsistent g ∧ fixOK g ∧ candsOK g

/-- The state left by a completed propagation pass: well-formed, no blank
cells, and every stored candidate set excludes the digits of its peers. -/
def Good (g : Grid) : Prop := Pre g ∧ ∀ p : Pos, pGood g p

/-- Soundness of `solveF` at fuel `n`: from a well-formed grid, a returned
grid is well-formed and complete. -/
def SVSound (n : Nat) : Prop :=
  ∀ g h, Pre g → solveF n g = some (Except.ok h) → Pre h ∧ complete h

/-- Soundness of `solveKeepF` at fuel `n`: from a well-formed grid, the
state kept after the nested `calculate_sets` is `Good`. -/
def SKSound (n : Nat) : Prop :=
  ∀ g h, Pre g → solveKeepF n g = some (Except.ok h) → Good h

/-- Completeness of `solveF` at fuel `n` with respect to a solution `T`:
on a state compatible with `T`, the solver succeeds. -/
def SVComplete (T : Grid) (n : Nat) : Prop :=
  ∀ g, admits g T → unknowns g < n → ∃ h, solveF n g = some (Except.ok h)

/-- Completeness of `solveKeepF` at fuel `n` with respect to a solution
`T`: on a state compatible with `T`, the call succeeds and the kept state
is still compatible with `T`. -/
def SKComplete (T : Grid) (n : Nat) : Prop :=
  ∀ g, admits g T → unknowns g < n →
    ∃ g₂, solveKeepF n g = some (Except.ok g₂) ∧ admits g₂ T

/-! ## Theorems -/

theorem solveF_succ (n : Nat) (g : Grid) :
    solveF (n + 1) g =
      match calcSetsF n g with
      | none => none
      | some (Except.error e) => some (Except.error e)
      | some (Except.ok g₂) => constraintPropF n g₂ := rfl

theorem solveKeepF_succ (n : Nat) (g : Grid) :
    solveKeepF (n + 1) g =
      match calcSetsF n g with
      | none => none
      | some (Except.error e) => some (Except.error e)
      | some (Except.ok g₂) =>
        match constraintPropF n g₂ with
        | none => none
        | some (Except.error e) => some (Except.error e)
        | some (Except.ok _) => some (Except.ok g₂) := rfl

theorem solveF_zero (g : Grid) : solveF 0 g = none := rfl

theorem solveKeepF_zero (g : Grid) : solveKeepF 0 g = none := rfl

theorem setCell_self (g : Grid) (r c : Fin 9) (v : Cell) :
    setCell g r c v r c = v := by simp [setCell]

theorem setCell_ne (g : Grid) (r c : Fin 9) (v : Cell) {i j : Fin 9}
    (h : ¬(i = r ∧ j = c)) : setCell g r c v i j = g i j := by
  simp [setCell, h]

theorem mem_positions (p : Pos) : p ∈ positions := by
  simp only [positions, List.mem_flatMap, List.mem_map]
  exact ⟨p.1, List.mem_finRange _, p.2, List.mem_finRange _, rfl⟩

theorem gridEqB_eq {g h : Grid} (he : gridEqB g h = true) : g = h := by
  funext r c
  simp only [gridEqB, List.all_eq_true] at he
  have := he r (List.mem_finRange r) c (List.mem_finRange c)
  exact eq_of_beq this

theorem sresEqB_eq : ∀ {a b : SRes}, sresEqB a b = true → a = b
  | none, none, _ => rfl
  | some (Except.error ()), some (Except.error ()), _ => rfl
  | some (Except.ok g), some (Except.ok h), he => by
    rw [gridEqB_eq (g := g) (h := h) he]
  | none, some (Except.error ()), he => by simp [sresEqB] at he
  | none, some (Except.ok _), he => by simp [sresEqB] at he
  | some (Except.error ()), none, he => by simp [sresEqB] at he
  | some (Except.ok _), none, he => by simp [sresEqB] at he
  | some (Except.error ()), some (Except.ok _), he => by simp [sresEqB] at he
  | some (Except.ok _), some (Except.error ()), he => by simp [sresEqB] at he

theorem mem_candList {s : Finset Nat} {v : Nat} : v ∈ candList s ↔ v ∈ s := by
  simp only [candList, List.mem_filter, List.mem_range, decide_eq_true_eq]
  exact ⟨fun h => h.2, fun h =>
    ⟨Nat.lt_succ_of_le (Finset.le_sup (f := id) h), h⟩⟩

theorem cellDigit_eq_some {x : Cell} {d : Nat} :
    cellDigit x = some d ↔ x = Cell.fixed d := by
  cases x <;> simp [cellDigit]

theorem cellBase_eq_none {x : Cell} : cellBase x = none ↔ x.isFixed = true := by
  cases x <;> simp [cellBase, Cell.isFixed]

theorem isFixed_iff {x : Cell} : x.isFixed = true ↔ ∃ d, x = Cell.fixed d := by
  cases x <;> simp [Cell.isFixed]

theorem blockIdx_val (r : Fin 9) (a : Fin 3) :
    (blockIdx r a).val = r.val - r.val % 3 + a.val := by
  simp only [blockIdx]
  split <;> omega

theorem unknowns_le81 (g : Grid) : unknowns g ≤ 81 := by
  calc unknowns g ≤ (Finset.univ : Finset Pos).card := Finset.card_filter_le _ _
    _ = 81 := by simp

theorem unknowns_pos {g : Grid} {p : Pos} (h : (g p.1 p.2).isFixed = false) :
    0 < unknowns g :=
  Finset.card_pos.mpr ⟨p, Finset.mem_filter.mpr ⟨Finset.mem_univ p, h⟩⟩

theorem unknowns_set_fixed {g : Grid} {r c : Fin 9}
    (h : (g r c).isFixed = false) (v : Nat) :
    unknowns (setCell g r c (Cell.fixed v)) + 1 = unknowns g := by
  have hmem : ((r, c) : Pos) ∈
      (Finset.univ : Finset Pos).filter (fun p => (g p.1 p.2).isFixed = false) :=
    Finset.mem_filter.mpr ⟨Finset.mem_univ _, h⟩
  have hset : (Finset.univ : Finset Pos).filter
        (fun p => ((setCell g r c (Cell.fixed v)) p.1 p.2).isFixed = false) =
      ((Finset.univ : Finset Pos).filter
        (fun p => (g p.1 p.2).isFixed = false)).erase (r, c) := by
    ext q
    by_cases hq : q = (r, c)
    · subst hq
      simp [Finset.mem_erase, Finset.mem_filter, setCell, Cell.isFixed]
    · have hq' : ¬(q.1 = r ∧ q.2 = c) := by
        intro ⟨h1, h2⟩
        exact hq (Prod.ext h1 h2)
      simp [Finset.mem_erase, Finset.mem_filter, hq, setCell_ne g r c _ hq']
  have hpos : 0 < ((Finset.univ : Finset Pos).filter
      (fun p => (g p.1 p.2).isFixed = false)).card :=
    Finset.card_pos.mpr ⟨(r, c), hmem⟩
  unfold unknowns
  rw [hset, Finset.card_erase_of_mem hmem]
  omega

theorem unknowns_set_cands {g : Grid} {r c : Fin 9}
    (h : (g r c).isFixed = false) (s : Finset Nat) :
    unknowns (setCell g r c (Cell.cands s)) = unknowns g := by
  unfold unknowns
  congr 1
  ext q
  by_cases hq : q = (r, c)
  · subst hq
    rcases hgc : g r c with _ | d | t
    · simp [Finset.mem_filter, setCell_self, hgc, Cell.isFixed]
    · rw [hgc] at h
      simp [Cell.isFixed] at h
    · simp [Finset.mem_filter, setCell_self, hgc, Cell.isFixed]
  · have hq' : ¬(q.1 = r ∧ q.2 = c) := by
      intro ⟨h1, h2⟩
      exact hq (Prod.ext h1 h2)
    simp [Finset.mem_filter, setCell_ne g r c _ hq']

theorem mem_impossibleSet {g : Grid} {r c : Fin 9} {d : Nat} :
    d ∈ impossibleSet g r c ↔
      (∃ a, g a c = Cell.fixed d) ∨ (∃ a, g r a = Cell.fixed d) ∨
        ∃ a b, g (blockIdx r a) (blockIdx c b) = Cell.fixed d := by
  simp only [impossibleSet, fixedDigitsIn, List.mem_toFinset, List.mem_filterMap,
    List.mem_append, rowColScan, blockScan, List.mem_flatMap, List.mem_map,
    cellDigit_eq_some, List.mem_cons, List.mem_singleton, List.not_mem_nil]
  constructor
  · rintro ⟨x, hx | hx, hxd⟩
    · obtain ⟨a, _, hx | hx | hx⟩ := hx
      · exact Or.inl ⟨a, hx ▸ hxd⟩
      · exact Or.inr (Or.inl ⟨a, hx ▸ hxd⟩)
      · exact absurd hx (by simp)
    · obtain ⟨a, _, b, _, hx⟩ := hx
      exact Or.inr (Or.inr ⟨a, b, hx ▸ hxd⟩)
  · rintro (⟨a, ha⟩ | ⟨a, ha⟩ | ⟨a, b, ha⟩)
    · exact ⟨g a c, Or.inl ⟨a, List.mem_finRange _, Or.inl rfl⟩, ha⟩
    · exact ⟨g r a, Or.inl ⟨a, List.mem_finRange _, Or.inr (Or.inl rfl)⟩, ha⟩
    · exact ⟨g (blockIdx r a) (blockIdx c b),
        Or.inr ⟨a, List.mem_finRange _, b, List.mem_finRange _, rfl⟩, ha⟩

theorem mem_impossible_of_peer {g : Grid} {p q : Pos} (hpq : peers p q) {d : Nat}
    (hq : g q.1 q.2 = Cell.fixed d) : d ∈ impossibleSet g p.1 p.2 := by
  rw [mem_impossibleSet]
  obtain ⟨-, hrow | hcol | hblk⟩ := hpq
  · exact Or.inr (Or.inl ⟨q.2, hrow ▸ hq⟩)
  · exact Or.inl ⟨q.1, hcol ▸ hq⟩
  · refine Or.inr (Or.inr ⟨⟨q.1.val % 3, by omega⟩, ⟨q.2.val % 3, by omega⟩, ?_⟩)
    have h1 : blockIdx p.1 ⟨q.1.val % 3, by omega⟩ = q.1 := by
      apply Fin.ext
      rw [blockIdx_val]
      show p.1.val - p.1.val % 3 + q.1.val % 3 = q.1.val
      have := hblk.1
      have := q.1.isLt
      have := p.1.isLt
      omega
    have h2 : blockIdx p.2 ⟨q.2.val % 3, by omega⟩ = q.2 := by
      apply Fin.ext
      rw [blockIdx_val]
      show p.2.val - p.2.val % 3 + q.2.val % 3 = q.2.val
      have := hblk.2
      have := q.2.isLt
      have := p.2.isLt
      omega
    rw [h1, h2]
    exact hq

theorem peer_or_self_of_mem_impossible {g : Grid} {r c : Fin 9} {d : Nat}
    (hd : d ∈ impossibleSet g r c) :
    ∃ q : Pos, g q.1 q.2 = Cell.fixed d ∧ (q = (r, c) ∨ peers (r, c) q) := by
  rw [mem_impossibleSet] at hd
  obtain ⟨a, ha⟩ | ⟨a, ha⟩ | ⟨a, b, ha⟩ := hd
  · refine ⟨(a, c), ha, ?_⟩
    by_cases hq : (a, c) = ((r, c) : Pos)
    · exact Or.inl hq
    · exact Or.inr ⟨Ne.symm hq, Or.inr (Or.inl rfl)⟩
  · refine ⟨(r, a), ha, ?_⟩
    by_cases hq : (r, a) = ((r, c) : Pos)
    · exact Or.inl hq
    · exact Or.inr ⟨Ne.symm hq, Or.inl rfl⟩
  · refine ⟨(blockIdx r a, blockIdx c b), ha, ?_⟩
    by_cases hq : (blockIdx r a, blockIdx c b) = ((r, c) : Pos)
    · exact Or.inl hq
    · refine Or.inr ⟨Ne.symm hq, Or.inr (Or.inr ⟨?_, ?_⟩)⟩
      · rw [blockIdx_val]
        show r.val / 3 = (r.val - r.val % 3 + a.val) / 3
        have := r.isLt
        have := a.isLt
        omega
      · rw [blockIdx_val]
        show c.val / 3 = (c.val - c.val % 3 + b.val) / 3
        have := c.isLt
        have := b.isLt
        omega

theorem units27_facts : ∀ u ∈ units27, u.length = 9 ∧ u.Nodup ∧
    ∀ p ∈ u, ∀ q ∈ u, p ≠ q → peers p q := by decide

theorem peers_mem_unit {p q : Pos} (h : peers p q) :
    ∃ u ∈ units27, p ∈ u ∧ q ∈ u := by
  obtain ⟨-, hrow | hcol | hblk⟩ := h
  · refine ⟨rowUnit p.1, ?_, ?_, ?_⟩
    · simp only [units27, List.mem_append]
      exact Or.inl (Or.inl (List.mem_map.mpr ⟨p.1, List.mem_finRange _, rfl⟩))
    · exact List.mem_map.mpr ⟨p.2, List.mem_finRange _, rfl⟩
    · exact List.mem_map.mpr ⟨q.2, List.mem_finRange _, by rw [hrow]⟩
  · refine ⟨colUnit p.2, ?_, ?_, ?_⟩
    · simp only [units27, List.mem_append]
      exact Or.inl (Or.inr (List.mem_map.mpr ⟨p.2, List.mem_finRange _, rfl⟩))
    · exact List.mem_map.mpr ⟨p.1, List.mem_finRange _, rfl⟩
    · exact List.mem_map.mpr ⟨q.1, List.mem_finRange _, by rw [hcol]⟩
  · refine ⟨blockUnit ⟨p.1.val / 3, by omega⟩ ⟨p.2.val / 3, by omega⟩, ?_, ?_, ?_⟩
    · simp only [units27, List.mem_append, List.mem_flatMap, List.mem_map]
      exact Or.inr ⟨⟨p.1.val / 3, by omega⟩, List.mem_finRange _,
        ⟨p.2.val / 3, by omega⟩, List.mem_finRange _, rfl⟩
    · simp only [blockUnit, List.mem_flatMap, List.mem_map]
      refine ⟨⟨p.1.val % 3, by omega⟩, List.mem_finRange _,
        ⟨p.2.val % 3, by omega⟩, List.mem_finRange _, ?_⟩
      refine Prod.ext (Fin.ext ?_) (Fin.ext ?_)
      · show 3 * (p.1.val / 3) + p.1.val % 3 = p.1.val
        omega
      · show 3 * (p.2.val / 3) + p.2.val % 3 = p.2.val
        omega
    · simp only [blockUnit, List.mem_flatMap, List.mem_map]
      refine ⟨⟨q.1.val % 3, by omega⟩, List.mem_finRange _,
        ⟨q.2.val % 3, by omega⟩, List.mem_finRange _, ?_⟩
      refine Prod.ext (Fin.ext ?_) (Fin.ext ?_)
      · show 3 * (p.1.val / 3) + q.1.val % 3 = q.1.val
        have h3 := hblk.1
        have h4 := q.1.isLt
        omega
      · show 3 * (p.2.val / 3) + q.2.val % 3 = q.2.val
        have h3 := hblk.2
        have h4 := q.2.isLt
        omega

theorem isFixed_false_of_cellBase {x : Cell} {b : Finset Nat}
    (h : cellBase x = some b) : x.isFixed = false := by
  cases x <;> simp_all [cellBase, Cell.isFixed]

theorem not_at_of_fixed {g : Grid} {r c : Fin 9} {p : Pos} {d : Nat}
    (hfix : (g r c).isFixed = false) (hp : g p.1 p.2 = Cell.fixed d) :
    ¬(p.1 = r ∧ p.2 = c) := by
  rintro ⟨h1, h2⟩
  rw [h1, h2] at hp
  rw [hp] at hfix
  simp [Cell.isFixed] at hfix

theorem calcSetsF_eq (n : Nat) (g : Grid) :
    calcSetsF n g = calcGoGen (checkF n) g positions := rfl

theorem constraintPropF_eq (n : Nat) (g : Grid) :
    constraintPropF n g = cpGoGen (solveF n) g positions := rfl

theorem calcSetsSawF_eq (n : Nat) (g : Grid) :
    calcSetsSawF n g = calcGoSawGen (checkSawF n) (checkF n) g positions := rfl

theorem solveSawF_succ (n : Nat) (g : Grid) :
    solveSawF (n + 1) g = calcSetsSawF n g := rfl

/-! ### Case equations for the loops and `check` -/

theorem calcGo_nil (chk : Grid → Fin 9 → Fin 9 → SRes) (g : Grid) :
    calcGoGen chk g [] = some (Except.ok g) := rfl

theorem calcGo_cons_none {chk : Grid → Fin 9 → Fin 9 → SRes} {g : Grid}
    {p : Pos} (ps : List Pos) (hx : chk g p.1 p.2 = none) :
    calcGoGen chk g (p :: ps) = none := by
  simp [calcGoGen, hx]

theorem calcGo_cons_error {chk : Grid → Fin 9 → Fin 9 → SRes} {g : Grid}
    {p : Pos} {e : Unit} (ps : List Pos)
    (hx : chk g p.1 p.2 = some (Except.error e)) :
    calcGoGen chk g (p :: ps) = some (Except.error e) := by
  simp [calcGoGen, hx]

theorem calcGo_cons_ok {chk : Grid → Fin 9 → Fin 9 → SRes} {g g' : Grid}
    {p : Pos} (ps : List Pos) (hx : chk g p.1 p.2 = some (Except.ok g')) :
    calcGoGen chk g (p :: ps) = calcGoGen chk g' ps := by
  simp [calcGoGen, hx]

theorem tryVals_nil (slv : Grid → SRes) (g : Grid) (r c : Fin 9) :
    tryValsGen slv g r c [] = some (Except.error ()) := rfl

theorem tryVals_cons_none {slv : Grid → SRes} {g : Grid} {r c : Fin 9} {v : Nat}
    (vs : List Nat) (hx : slv (setCell g r c (Cell.fixed v)) = none) :
    tryValsGen slv g r c (v :: vs) = none := by
  simp [tryValsGen, hx]

theorem tryVals_cons_ok {slv : Grid → SRes} {g h : Grid} {r c : Fin 9} {v : Nat}
    (vs : List Nat) (hx : slv (setCell g r c (Cell.fixed v)) = some (Except.ok h)) :
    tryValsGen slv g r c (v :: vs) = some (Except.ok h) := by
  simp [tryValsGen, hx]

theorem tryVals_cons_error {slv : Grid → SRes} {g : Grid} {r c : Fin 9} {v : Nat}
    {e : Unit} (vs : List Nat)
    (hx : slv (setCell g r c (Cell.fixed v)) = some (Except.error e)) :
    tryValsGen slv g r c (v :: vs) = tryValsGen slv g r c vs := by
  simp [tryValsGen, hx]

theorem cpGo_nil (slv : Grid → SRes) (g : Grid) :
    cpGoGen slv g [] = some (Except.ok g) := rfl

theorem cpGo_cons_blank {slv : Grid → SRes} {g : Grid} {p : Pos}
    (ps : List Pos) (hgp : g p.1 p.2 = Cell.blank) :
    cpGoGen slv g (p :: ps) = cpGoGen slv g ps := by
  simp [cpGoGen, hgp]

theorem cpGo_cons_fixed {slv : Grid → SRes} {g : Grid} {p : Pos} {d : Nat}
    (ps : List Pos) (hgp : g p.1 p.2 = Cell.fixed d) :
    cpGoGen slv g (p :: ps) = cpGoGen slv g ps := by
  simp [cpGoGen, hgp]

theorem cpGo_cons_cands {slv : Grid → SRes} {g : Grid} {p : Pos}
    {s : Finset Nat} (ps : List Pos) (hgp : g p.1 p.2 = Cell.cands s) :
    cpGoGen slv g (p :: ps) = tryValsGen slv g p.1 p.2 (candList s) := by
  simp [cpGoGen, hgp]

theorem checkF_eq_of_base_none (n : Nat) {g : Grid} {r c : Fin 9}
    (hb : cellBase (g r c) = none) : checkF n g r c = some (Except.ok g) := by
  unfold checkF checkV
  rw [hb]

theorem checkF_eq_commit (n : Nat) {g : Grid} {r c : Fin 9} {base : Finset Nat}
    {d : Nat} (hb : cellBase (g r c) = some base)
    (hp : possibleSet g r c = {d}) :
    checkF n g r c = solveKeepF n (setCell g r c (Cell.fixed d)) := by
  unfold checkF checkV
  rw [hb]
  simp [hp]

theorem checkF_eq_error (n : Nat) {g : Grid} {r c : Fin 9} {base : Finset Nat}
    (hb : cellBase (g r c) = some base) (hemp : possibleSet g r c = ∅) :
    checkF n g r c = some (Except.error ()) := by
  unfold checkF checkV
  rw [hb]
  simp [hemp]

theorem checkF_eq_store (n : Nat) {g : Grid} {r c : Fin 9} {base : Finset Nat}
    (hb : cellBase (g r c) = some base) (hcard : (possibleSet g r c).card ≠ 1)
    (hemp : possibleSet g r c ≠ ∅) :
    checkF n g r c = some (Except.ok (setCell g r c
      (Cell.cands (possibleSet g r c)))) := by
  unfold checkF checkV
  rw [hb, dif_neg hcard, if_neg hemp]

theorem checkSawF_eq_of_base_none (n : Nat) {g : Grid} {r c : Fin 9}
    (hb : cellBase (g r c) = none) : checkSawF n g r c = false := by
  unfold checkSawF checkSawV
  rw [hb]

theorem checkSawF_eq_commit (n : Nat) {g : Grid} {r c : Fin 9} {base : Finset Nat}
    {d : Nat} (hb : cellBase (g r c) = some base)
    (hp : possibleSet g r c = {d}) :
    checkSawF n g r c = solveSawF n (setCell g r c (Cell.fixed d)) := by
  unfold checkSawF checkSawV
  rw [hb]
  simp [hp]

theorem checkSawF_eq_error (n : Nat) {g : Grid} {r c : Fin 9} {base : Finset Nat}
    (hb : cellBase (g r c) = some base) (hemp : possibleSet g r c = ∅) :
    checkSawF n g r c = true := by
  unfold checkSawF checkSawV
  rw [hb]
  simp [hemp]

theorem checkSawF_eq_store (n : Nat) {g : Grid} {r c : Fin 9} {base : Finset Nat}
    (hb : cellBase (g r c) = some base) (hcard : (possibleSet g r c).card ≠ 1)
    (hemp : possibleSet g r c ≠ ∅) : checkSawF n g r c = false := by
  unfold checkSawF checkSawV
  rw [hb, dif_neg hcard, if_neg hemp]

/-- The three `check` outcomes on a non-digit cell, by cardinality of the
computed candidate set. -/
theorem possible_trichotomy (g : Grid) (r c : Fin 9) :
    (∃ d, possibleSet g r c = {d}) ∨ possibleSet g r c = ∅ ∨
      ((possibleSet g r c).card ≠ 1 ∧ possibleSet g r c ≠ ∅) := by
  by_cases h1 : (possibleSet g r c).card = 1
  · exact Or.inl (Finset.card_eq_one.mp h1)
  · by_cases h2 : possibleSet g r c = ∅
    · exact Or.inr (Or.inl h2)
    · exact Or.inr (Or.inr ⟨h1, h2⟩)

/-! ### Adequacy: fuel `unknowns g + 1` suffices -/

theorem checkF_adeq {n : Nat} (hsk : SKAdeq n) (g : Grid) (r c : Fin 9)
    (hg : unknowns g ≤ n) :
    (∃ x, checkF n g r c = some x) ∧
      ∀ h, checkF n g r c = some (Except.ok h) → unknowns h ≤ unknowns g := by
  rcases hb : cellBase (g r c) with - | base
  · rw [checkF_eq_of_base_none n hb]
    exact ⟨⟨Except.ok g, rfl⟩, fun h hh => by simp_all⟩
  · have hfix := isFixed_false_of_cellBase hb
    rcases possible_trichotomy g r c with ⟨d, hp⟩ | hemp | ⟨hcard, hemp⟩
    · rw [checkF_eq_commit n hb hp]
      have h1 := unknowns_set_fixed hfix d
      have h2 := hsk (setCell g r c (Cell.fixed d)) (by omega)
      refine ⟨h2.1, fun h hh => ?_⟩
      have := h2.2 h hh
      omega
    · rw [checkF_eq_error n hb hemp]
      exact ⟨⟨Except.error (), rfl⟩, fun h hh => by simp_all⟩
    · rw [checkF_eq_store n hb hcard hemp]
      refine ⟨⟨Except.ok _, rfl⟩, fun h hh => ?_⟩
      have hh' : setCell g r c (Cell.cands (possibleSet g r c)) = h := by
        simp_all
      rw [← hh', unknowns_set_cands hfix]

theorem calcGo_adeq {n : Nat} (hsk : SKAdeq n) :
    ∀ (ps : List Pos) (g : Grid), unknowns g ≤ n →
      (∃ x, calcGoGen (checkF n) g ps = some x) ∧
        ∀ h, calcGoGen (checkF n) g ps = some (Except.ok h) →
          unknowns h ≤ unknowns g := by
  intro ps
  induction ps with
  | nil =>
    intro g hg
    rw [calcGo_nil]
    exact ⟨⟨Except.ok g, rfl⟩, fun h hh => by simp_all⟩
  | cons p ps ih =>
    intro g hg
    obtain ⟨⟨x, hx⟩, hcm⟩ := checkF_adeq hsk g p.1 p.2 hg
    rcases x with e | g'
    · rw [calcGo_cons_error ps hx]
      exact ⟨⟨Except.error e, rfl⟩, fun h hh => by simp_all⟩
    · rw [calcGo_cons_ok ps hx]
      have hle := hcm g' hx
      obtain ⟨⟨y, hy⟩, hym⟩ := ih g' (le_trans hle hg)
      exact ⟨⟨y, hy⟩, fun h hh => le_trans (hym h hh) hle⟩

theorem tryVals_adeq {n : Nat} (hsv : SVAdeq n) :
    ∀ (vs : List Nat) (g : Grid) (r c : Fin 9), unknowns g ≤ n →
      (g r c).isFixed = false →
      (∃ x, tryValsGen (solveF n) g r c vs = some x) ∧
        ∀ h, tryValsGen (solveF n) g r c vs = some (Except.ok h) →
          unknowns h ≤ unknowns g := by
  intro vs
  induction vs with
  | nil =>
    intro g r c hg hfix
    rw [tryVals_nil]
    exact ⟨⟨Except.error (), rfl⟩, fun h hh => by simp_all⟩
  | cons v vs ih =>
    intro g r c hg hfix
    have h1 := unknowns_set_fixed hfix v
    obtain ⟨⟨x, hx⟩, hm⟩ := hsv (setCell g r c (Cell.fixed v)) (by omega)
    rcases x with e | h'
    · rw [tryVals_cons_error vs hx]
      exact ih g r c hg hfix
    · rw [tryVals_cons_ok vs hx]
      refine ⟨⟨Except.ok h', rfl⟩, fun h hh => ?_⟩
      have hh' : h' = h := by simp_all
      subst hh'
      have := hm h' hx
      omega

theorem cpGo_adeq {n : Nat} (hsv : SVAdeq n) :
    ∀ (ps : List Pos) (g : Grid), unknowns g ≤ n →
      (∃ x, cpGoGen (solveF n) g ps = some x) ∧
        ∀ h, cpGoGen (solveF n) g ps = some (Except.ok h) →
          unknowns h ≤ unknowns g := by
  intro ps
  induction ps with
  | nil =>
    intro g hg
    rw [cpGo_nil]
    exact ⟨⟨Except.ok g, rfl⟩, fun h hh => by simp_all⟩
  | cons p ps ih =>
    intro g hg
    rcases hgp : g p.1 p.2 with - | d | s
    · rw [cpGo_cons_blank ps hgp]
      exact ih g hg
    · rw [cpGo_cons_fixed ps hgp]
      exact ih g hg
    · rw [cpGo_cons_cands ps hgp]
      have hfix : (g p.1 p.2).isFixed = false := by
        rw [hgp]
        rfl
      exact tryVals_adeq hsv (candList s) g p.1 p.2 hg hfix

theorem solve_adeq : ∀ n : Nat, SVAdeq n ∧ SKAdeq n := by
  intro n
  induction n with
  | zero =>
    constructor <;> intro g hg <;> exact absurd hg (by omega)
  | succ m ih =>
    constructor
    · intro g hg
      rw [solveF_succ]
      obtain ⟨⟨x, hx⟩, hxm⟩ := calcGo_adeq ih.2 positions g (by omega)
      rw [← calcSetsF_eq] at hx
      rcases x with e | g₂
      · simp only [hx]
        exact ⟨⟨Except.error e, rfl⟩, fun h hh => by simp_all⟩
      · simp only [hx]
        have hle := hxm g₂ (calcSetsF_eq m g ▸ hx)
        obtain ⟨⟨y, hy⟩, hym⟩ := cpGo_adeq ih.1 positions g₂ (by omega)
        rw [← constraintPropF_eq] at hy
        rw [hy]
        refine ⟨⟨y, rfl⟩, fun h hh => ?_⟩
        have := hym h (by rw [← constraintPropF_eq, hy, hh])
        omega
    · intro g hg
      rw [solveKeepF_succ]
      obtain ⟨⟨x, hx⟩, hxm⟩ := calcGo_adeq ih.2 positions g (by omega)
      rw [← calcSetsF_eq] at hx
      rcases x with e | g₂
      · simp only [hx]
        exact ⟨⟨Except.error e, rfl⟩, fun h hh => by simp_all⟩
      · simp only [hx]
        have hle := hxm g₂ (calcSetsF_eq m g ▸ hx)
        obtain ⟨⟨y, hy⟩, hym⟩ := cpGo_adeq ih.1 positions g₂ (by omega)
        rw [← constraintPropF_eq] at hy
        simp only [hy]
        rcases y with e | h'
        · exact ⟨⟨Except.error e, rfl⟩, fun h hh => by simp_all⟩
        · refine ⟨⟨Except.ok g₂, rfl⟩, fun h hh => ?_⟩
          have : g₂ = h := by simp_all
          subst this
          exact hle

/-! ### Digit cells are never changed -/

theorem checkF_mono {n : Nat} (hsk : SKMono n) (g : Grid) (r c : Fin 9)
    {h : Grid} (hh : checkF n g r c = some (Except.ok h)) :
    ∀ (p : Pos) (d : Nat), g p.1 p.2 = Cell.fixed d → h p.1 p.2 = Cell.fixed d := by
  rcases hb : cellBase (g r c) with - | base
  · rw [checkF_eq_of_base_none n hb] at hh
    have : g = h := by simp_all
    subst this
    exact fun p d hp => hp
  · have hfix := isFixed_false_of_cellBase hb
    rcases possible_trichotomy g r c with ⟨d0, hp0⟩ | hemp | ⟨hcard, hemp⟩
    · rw [checkF_eq_commit n hb hp0] at hh
      intro p d hp
      refine hsk _ _ hh p d ?_
      rw [setCell_ne g r c _ (not_at_of_fixed hfix hp)]
      exact hp
    · rw [checkF_eq_error n hb hemp] at hh
      simp_all
    · rw [checkF_eq_store n hb hcard hemp] at hh
      have hh' : setCell g r c (Cell.cands (possibleSet g r c)) = h := by
        simp_all
      subst hh'
      intro p d hp
      rw [setCell_ne g r c _ (not_at_of_fixed hfix hp)]
      exact hp

theorem calcGo_mono {n : Nat} (hsk : SKMono n) :
    ∀ (ps : List Pos) (g : Grid) {h : Grid},
      calcGoGen (checkF n) g ps = some (Except.ok h) →
      ∀ (p : Pos) (d : Nat), g p.1 p.2 = Cell.fixed d →
        h p.1 p.2 = Cell.fixed d := by
  intro ps
  induction ps with
  | nil =>
    intro g h hh
    rw [calcGo_nil] at hh
    have : g = h := by simp_all
    subst this
    exact fun p d hp => hp
  | cons p ps ih =>
    intro g h hh
    rcases hx : checkF n g p.1 p.2 with - | e
    · rw [calcGo_cons_none ps hx] at hh
      simp_all
    · rcases e with e | g'
      · rw [calcGo_cons_error ps hx] at hh
        simp_all
      · rw [calcGo_cons_ok ps hx] at hh
        intro q d hq
        exact ih g' hh q d (checkF_mono hsk g p.1 p.2 hx q d hq)

theorem tryVals_mono {n : Nat} (hsv : SVMono n) :
    ∀ (vs : List Nat) (g : Grid) (r c : Fin 9), (g r c).isFixed = false →
      ∀ {h : Grid}, tryValsGen (solveF n) g r c vs = some (Except.ok h) →
      ∀ (p : Pos) (d : Nat), g p.1 p.2 = Cell.fixed d →
        h p.1 p.2 = Cell.fixed d := by
  intro vs
  induction vs with
  | nil =>
    intro g r c hfix h hh
    rw [tryVals_nil] at hh
    simp_all
  | cons v vs ih =>
    intro g r c hfix h hh
    rcases hx : solveF n (setCell g r c (Cell.fixed v)) with - | e
    · rw [tryVals_cons_none vs hx] at hh
      simp_all
    · rcases e with e | g'
      · rw [tryVals_cons_error vs hx] at hh
        exact ih g r c hfix hh
      · rw [tryVals_cons_ok vs hx] at hh
        have : g' = h := by simp_all
        subst this
        intro p d hp
        refine hsv _ _ hx p d ?_
        rw [setCell_ne g r c _ (not_at_of_fixed hfix hp)]
        exact hp

theorem cpGo_mono {n : Nat} (hsv : SVMono n) :
    ∀ (ps : List Pos) (g : Grid) {h : Grid},
      cpGoGen (solveF n) g ps = some (Except.ok h) →
      ∀ (p : Pos) (d : Nat), g p.1 p.2 = Cell.fixed d →
        h p.1 p.2 = Cell.fixed d := by
  intro ps
  induction ps with
  | nil =>
    intro g h hh
    rw [cpGo_nil] at hh
    have : g = h := by simp_all
    subst this
    exact fun p d hp => hp
  | cons p ps ih =>
    intro g h hh
    rcases hgp : g p.1 p.2 with - | d | s
    · rw [cpGo_cons_blank ps hgp] at hh
      exact ih g hh
    · rw [cpGo_cons_fixed ps hgp] at hh
      exact ih g hh
    · rw [cpGo_cons_cands ps hgp] at hh
      have hfix : (g p.1 p.2).isFixed = false := by
        rw [hgp]
        rfl
      exact tryVals_mono hsv (candList s) g p.1 p.2 hfix hh

theorem solve_mono : ∀ n : Nat, SVMono n ∧ SKMono n := by
  intro n
  induction n with
  | zero =>
    constructor <;> intro g h hh <;>
      exact absurd hh (by simp [solveF_zero, solveKeepF_zero])
  | succ m ih =>
    constructor
    · intro g h hh
      rw [solveF_succ] at hh
      rcases hx : calcSetsF m g with - | e
      · simp_all
      · rcases e with e | g₂
        · rw [hx] at hh
          simp_all
        · simp only [hx] at hh
          intro p d hp
          have h1 := calcGo_mono ih.2 positions g (calcSetsF_eq m g ▸ hx) p d hp
          exact cpGo_mono ih.1 positions g₂ (constraintPropF_eq m g₂ ▸ hh) p d h1
    · intro g h hh
      rw [solveKeepF_succ] at hh
      rcases hx : calcSetsF m g with - | e
      · simp_all
      · rcases e with e | g₂
        · rw [hx] at hh
          simp_all
        · simp only [hx] at hh
          rcases hy : constraintPropF m g₂ with - | e
          · simp_all
          · rcases e with e | g₃
            · simp only [hy] at hh
              simp_all
            · simp only [hy] at hh
              have : g₂ = h := by simp_all
              subst this
              intro p d hp
              exact calcGo_mono ih.2 positions g (calcSetsF_eq m g ▸ hx) p d hp

/-! ### Soundness: returned grids are consistent and complete -/

theorem peers_symm {p q : Pos} (h : peers p q) : peers q p := by
  obtain ⟨hne, hr | hc | hb⟩ := h
  · exact ⟨hne.symm, Or.inl hr.symm⟩
  · exact ⟨hne.symm, Or.inr (Or.inl hc.symm)⟩
  · exact ⟨hne.symm, Or.inr (Or.inr ⟨hb.1.symm, hb.2.symm⟩)⟩

theorem cellBase_cases {x : Cell} {b : Finset Nat} (h : cellBase x = some b) :
    (x = Cell.blank ∧ b = fullDigits) ∨ x = Cell.cands b := by
  cases x <;> simp_all [cellBase]

theorem possibleSet_eq {g : Grid} {r c : Fin 9} {base : Finset Nat}
    (hb : cellBase (g r c) = some base) :
    possibleSet g r c = base \ impossibleSet g r c := by
  simp [possibleSet, hb]

theorem base_mem_full {g : Grid} {r c : Fin 9} {base : Finset Nat} {d : Nat}
    (hc : candsOK g) (hb : cellBase (g r c) = some base) (hd : d ∈ base) :
    d ∈ fullDigits := by
  rcases cellBase_cases hb with ⟨-, hfull⟩ | hcell
  · exact hfull ▸ hd
  · have := hc (r, c)
    rw [show g ((r, c) : Pos).1 ((r, c) : Pos).2 = g r c from rfl, hcell] at this
    simp only [cellCandsOK, decide_eq_true_eq] at this
    exact this hd

theorem pre_setFixed {g : Grid} {r c : Fin 9} {v : Nat} (hpre : Pre g)
    (hfix : (g r c).isFixed = false) (hv : v ∈ fullDigits)
    (hdisj : ∀ q : Pos, peers ((r, c) : Pos) q →
      ∀ e, g q.1 q.2 = Cell.fixed e → e ≠ v) :
    Pre (setCell g r c (Cell.fixed v)) := by
  obtain ⟨hcons, hok, hcands⟩ := hpre
  refine ⟨?_, ?_, ?_⟩
  · intro p q hpq hpfix
    by_cases hp : p.1 = r ∧ p.2 = c
    · have hpc : p = ((r, c) : Pos) := Prod.ext hp.1 hp.2
      have hq : ¬(q.1 = r ∧ q.2 = c) := by
        intro hq
        exact hpq.1 (hpc.trans (Prod.ext hq.1 hq.2).symm)
      rw [hpc, setCell_self, setCell_ne g r c _ hq]
      intro heq
      exact hdisj q (hpc ▸ hpq) v heq.symm rfl
    · rw [setCell_ne g r c _ hp] at hpfix ⊢
      by_cases hq : q.1 = r ∧ q.2 = c
      · have hqc : q = ((r, c) : Pos) := Prod.ext hq.1 hq.2
        rw [hqc, setCell_self]
        obtain ⟨e, he⟩ := isFixed_iff.mp hpfix
        rw [he]
        intro heq
        have : e = v := by injection heq
        subst this
        exact hdisj p (peers_symm (hqc ▸ hpq)) e he rfl
      · rw [setCell_ne g r c _ hq]
        exact hcons p q hpq hpfix
  · intro p
    by_cases hp : p.1 = r ∧ p.2 = c
    · have hpc : p = ((r, c) : Pos) := Prod.ext hp.1 hp.2
      rw [hpc, show setCell g r c (Cell.fixed v) ((r, c) : Pos).1
        ((r, c) : Pos).2 = Cell.fixed v from setCell_self ..]
      simp [cellDigitOK, hv]
    · rw [setCell_ne g r c _ hp]
      exact hok p
  · intro p
    by_cases hp : p.1 = r ∧ p.2 = c
    · have hpc : p = ((r, c) : Pos) := Prod.ext hp.1 hp.2
      rw [hpc, show setCell g r c (Cell.fixed v) ((r, c) : Pos).1
        ((r, c) : Pos).2 = Cell.fixed v from setCell_self ..]
      rfl
    · rw [setCell_ne g r c _ hp]
      exact hcands p

theorem pre_setCands {g : Grid} {r c : Fin 9} {base : Finset Nat}
    (hpre : Pre g) (hb : cellBase (g r c) = some base) :
    Pre (setCell g r c (Cell.cands (possibleSet g r c))) := by
  obtain ⟨hcons, hok, hcands⟩ := hpre
  refine ⟨?_, ?_, ?_⟩
  · intro p q hpq hpfix
    by_cases hp : p.1 = r ∧ p.2 = c
    · have hpc : p = ((r, c) : Pos) := Prod.ext hp.1 hp.2
      rw [hpc, setCell_self] at hpfix
      simp [Cell.isFixed] at hpfix
    · rw [setCell_ne g r c _ hp] at hpfix ⊢
      by_cases hq : q.1 = r ∧ q.2 = c
      · have hqc : q = ((r, c) : Pos) := Prod.ext hq.1 hq.2
        rw [hqc, setCell_self]
        obtain ⟨e, he⟩ := isFixed_iff.mp hpfix
        rw [he]
        intro heq
        exact Cell.noConfusion heq
      · rw [setCell_ne g r c _ hq]
        exact hcons p q hpq hpfix
  · intro p
    by_cases hp : p.1 = r ∧ p.2 = c
    · have hpc : p = ((r, c) : Pos) := Prod.ext hp.1 hp.2
      rw [hpc, show setCell g r c (Cell.cands (possibleSet g r c)) ((r, c) : Pos).1
        ((r, c) : Pos).2 = Cell.cands (possibleSet g r c) from setCell_self ..]
      rfl
    · rw [setCell_ne g r c _ hp]
      exact hok p
  · intro p
    by_cases hp : p.1 = r ∧ p.2 = c
    · have hpc : p = ((r, c) : Pos) := Prod.ext hp.1 hp.2
      rw [hpc, show setCell g r c (Cell.cands (possibleSet g r c)) ((r, c) : Pos).1
        ((r, c) : Pos).2 = Cell.cands (possibleSet g r c) from setCell_self ..]
      simp only [cellCandsOK, decide_eq_true_eq]
      intro e he
      have : e ∈ base := (Finset.mem_sdiff.mp ((possibleSet_eq hb) ▸ he)).1
      exact base_mem_full hcands hb this
    · rw [setCell_ne g r c _ hp]
      exact hcands p

theorem checkF_sound {n : Nat} (hskS : SKSound n) (g : Grid) (r c : Fin 9)
    (hpre : Pre g) {h : Grid} (hh : checkF n g r c = some (Except.ok h)) :
    Pre h ∧
      ((h = g ∧ (g r c).isFixed = true) ∨
        (h = setCell g r c (Cell.cands (possibleSet g r c)) ∧
          (g r c).isFixed = false) ∨
        Good h) := by
  rcases hb : cellBase (g r c) with - | base
  · rw [checkF_eq_of_base_none n hb] at hh
    have : g = h := by simp_all
    subst this
    exact ⟨hpre, Or.inl ⟨rfl, cellBase_eq_none.mp hb⟩⟩
  · have hfix := isFixed_false_of_cellBase hb
    rcases possible_trichotomy g r c with ⟨d, hp⟩ | hemp | ⟨hcard, hemp⟩
    · rw [checkF_eq_commit n hb hp] at hh
      have hd : d ∈ possibleSet g r c := by
        rw [hp]
        exact Finset.mem_singleton_self d
      have hdb : d ∈ base := (Finset.mem_sdiff.mp ((possibleSet_eq hb) ▸ hd)).1
      have hdn : d ∉ impossibleSet g r c :=
        (Finset.mem_sdiff.mp ((possibleSet_eq hb) ▸ hd)).2
      have hpre' : Pre (setCell g r c (Cell.fixed d)) := by
        refine pre_setFixed hpre hfix (base_mem_full hpre.2.2 hb hdb) ?_
        intro q hq e he hedv
        subst hedv
        exact hdn (mem_impossible_of_peer hq he)
      have hgood := hskS _ _ hpre' hh
      exact ⟨hgood.1, Or.inr (Or.inr hgood)⟩
    · rw [checkF_eq_error n hb hemp] at hh
      simp_all
    · rw [checkF_eq_store n hb hcard hemp] at hh
      have hh' : setCell g r c (Cell.cands (possibleSet g r c)) = h := by
        simp_all
      subst hh'
      exact ⟨pre_setCands hpre hb, Or.inr (Or.inl ⟨rfl, hfix⟩)⟩

theorem pGood_of_store {g : Grid} {r c : Fin 9} {base : Finset Nat}
    (hb : cellBase (g r c) = some base) :
    pGood (setCell g r c (Cell.cands (possibleSet g r c))) (r, c) := by
  constructor
  · rw [show ((r, c) : Pos).1 = r from rfl, show ((r, c) : Pos).2 = c from rfl,
      setCell_self]
    intro he
    exact Cell.noConfusion he
  · intro s hs q hq e he
    rw [show ((r, c) : Pos).1 = r from rfl, show ((r, c) : Pos).2 = c from rfl,
      setCell_self] at hs
    have hsq : s = possibleSet g r c := by
      injection hs with hs'
      exact hs'.symm
    subst hsq
    have hqne : ¬(q.1 = r ∧ q.2 = c) := by
      intro hqq
      exact hq.1 ((Prod.ext hqq.1 hqq.2).symm)
    rw [setCell_ne g r c _ hqne] at he
    intro hes
    have := (Finset.mem_sdiff.mp ((possibleSet_eq hb) ▸ hes)).2
    exact this (mem_impossible_of_peer hq he)

theorem pGood_preserved_store {g : Grid} {r c : Fin 9} {q : Pos}
    (hq : ¬(q.1 = r ∧ q.2 = c)) (s : Finset Nat) (hgq : pGood g q) :
    pGood (setCell g r c (Cell.cands s)) q := by
  obtain ⟨h1, h2⟩ := hgq
  constructor
  · rw [setCell_ne g r c _ hq]
    exact h1
  · intro t ht x hx e he
    rw [setCell_ne g r c _ hq] at ht
    by_cases hxc : x.1 = r ∧ x.2 = c
    · have : x = ((r, c) : Pos) := Prod.ext hxc.1 hxc.2
      rw [this, show ((r, c) : Pos).1 = r from rfl,
        show ((r, c) : Pos).2 = c from rfl, setCell_self] at he
      exact absurd he (by intro hcon; exact Cell.noConfusion hcon)
    · rw [setCell_ne g r c _ hxc] at he
      exact h2 t ht x hx e he

theorem pGood_of_fixed {g : Grid} {p : Pos} (h : (g p.1 p.2).isFixed = true) :
    pGood g p := by
  obtain ⟨d, hd⟩ := isFixed_iff.mp h
  constructor
  · rw [hd]
    intro hcon
    exact Cell.noConfusion hcon
  · intro s hs
    rw [hd] at hs
    exact absurd hs (by intro hcon; exact Cell.noConfusion hcon)

theorem calcGo_sound {n : Nat} (hskS : SKSound n) :
    ∀ (ps : List Pos) (g : Grid), Pre g →
      (∀ p : Pos, p ∉ ps → pGood g p) →
      ∀ {h : Grid}, calcGoGen (checkF n) g ps = some (Except.ok h) → Good h := by
  intro ps
  induction ps with
  | nil =>
    intro g hpre hgood h hh
    rw [calcGo_nil] at hh
    have : g = h := by simp_all
    subst this
    exact ⟨hpre, fun p => hgood p (List.not_mem_nil p)⟩
  | cons p ps ih =>
    intro g hpre hgood h hh
    rcases hx : checkF n g p.1 p.2 with - | e
    · rw [calcGo_cons_none ps hx] at hh
      simp_all
    · rcases e with e | g'
      · rw [calcGo_cons_error ps hx] at hh
        simp_all
      · rw [calcGo_cons_ok ps hx] at hh
        obtain ⟨hpre', hcase⟩ := checkF_sound hskS g p.1 p.2 hpre hx
        rcases hcase with ⟨hgg, hfixp⟩ | ⟨hst, hfixp⟩ | hgd
        · subst hgg
          refine ih g' hpre' ?_ hh
          intro q hq
          by_cases hqp : q = p
          · subst hqp
            exact pGood_of_fixed hfixp
          · exact hgood q (by simp_all)
        · subst hst
          refine ih _ hpre' ?_ hh
          intro q hq
          by_cases hqp : q = p
          · subst hqp
            rcases hb : cellBase (g q.1 q.2) with - | base
            · rw [cellBase_eq_none] at hb
              rw [hb] at hfixp
              exact absurd hfixp (by simp)
            · exact pGood_of_store hb
          · refine pGood_preserved_store ?_ _ (hgood q (by simp_all))
            intro hqq
            exact hqp (Prod.ext hqq.1 hqq.2)
        · refine ih g' hgd.1 ?_ hh
          intro q hq
          exact hgd.2 q

theorem tryVals_sound {n : Nat} (hsvS : SVSound n) :
    ∀ (vs : List Nat) (g : Grid) (r c : Fin 9) (s : Finset Nat), Good g →
      g r c = Cell.cands s → (∀ v ∈ vs, v ∈ s) →
      ∀ {h : Grid}, tryValsGen (solveF n) g r c vs = some (Except.ok h) →
        Pre h ∧ complete h := by
  intro vs
  induction vs with
  | nil =>
    intro g r c s hgood hgc hvs h hh
    rw [tryVals_nil] at hh
    simp_all
  | cons v vs ih =>
    intro g r c s hgood hgc hvs h hh
    have hfix : (g r c).isFixed = false := by
      rw [hgc]
      rfl
    have hvmem : v ∈ s := hvs v (List.mem_cons_self v vs)
    have hvfull : v ∈ fullDigits := by
      have := hgood.1.2.2 (r, c)
      rw [show g ((r, c) : Pos).1 ((r, c) : Pos).2 = g r c from rfl, hgc] at this
      simp only [cellCandsOK, decide_eq_true_eq] at this
      exact this hvmem
    have hpre' : Pre (setCell g r c (Cell.fixed v)) := by
      refine pre_setFixed hgood.1 hfix hvfull ?_
      intro q hq e he hev
      subst hev
      have := (hgood.2 ((r, c) : Pos)).2 s
        (by rw [show g ((r, c) : Pos).1 ((r, c) : Pos).2 = g r c from rfl]; exact hgc)
        q hq e he
      exact this hvmem
    rcases hx : solveF n (setCell g r c (Cell.fixed v)) with - | e
    · rw [tryVals_cons_none vs hx] at hh
      simp_all
    · rcases e with e | g'
      · rw [tryVals_cons_error vs hx] at hh
        exact ih g r c s hgood hgc (fun w hw => hvs w (List.mem_cons_of_mem v hw)) hh
      · rw [tryVals_cons_ok vs hx] at hh
        have : g' = h := by simp_all
        subst this
        exact hsvS _ _ hpre' hx

theorem cpGo_sound {n : Nat} (hsvS : SVSound n) :
    ∀ (ps : List Pos) (g : Grid), Good g →
      (∀ p : Pos, p ∉ ps → (g p.1 p.2).isFixed = true) →
      ∀ {h : Grid}, cpGoGen (solveF n) g ps = some (Except.ok h) →
        Pre h ∧ complete h := by
  intro ps
  induction ps with
  | nil =>
    intro g hgood hfix h hh
    rw [cpGo_nil] at hh
    have : g = h := by simp_all
    subst this
    exact ⟨hgood.1, fun p => hfix p (List.not_mem_nil p)⟩
  | cons p ps ih =>
    intro g hgood hfix h hh
    rcases hgp : g p.1 p.2 with - | d | s
    · exact absurd hgp ((hgood.2 p).1)
    · rw [cpGo_cons_fixed ps hgp] at hh
      refine ih g hgood ?_ hh
      intro q hq
      by_cases hqp : q = p
      · subst hqp
        rw [hgp]
        rfl
      · exact hfix q (by simp_all)
    · rw [cpGo_cons_cands ps hgp] at hh
      exact tryVals_sound hsvS (candList s) g p.1 p.2 s hgood hgp
        (fun v hv => mem_candList.mp hv) hh

theorem solve_sound : ∀ n : Nat, SVSound n ∧ SKSound n := by
  intro n
  induction n with
  | zero =>
    constructor <;> intro g h hpre hh <;>
      exact absurd hh (by simp [solveF_zero, solveKeepF_zero])
  | succ m ih =>
    constructor
    · intro g h hpre hh
      rw [solveF_succ] at hh
      rcases hx : calcSetsF m g with - | e
      · simp_all
      · rcases e with e | g₂
        · rw [hx] at hh
          simp_all
        · simp only [hx] at hh
          have hgood := calcGo_sound ih.2 positions g hpre
            (fun p hp => absurd (mem_positions p) hp) (calcSetsF_eq m g ▸ hx)
          exact cpGo_sound ih.1 positions g₂ hgood
            (fun p hp => absurd (mem_positions p) hp)
            (constraintPropF_eq m g₂ ▸ hh)
    · intro g h hpre hh
      rw [solveKeepF_succ] at hh
      rcases hx : calcSetsF m g with - | e
      · simp_all
      · rcases e with e | g₂
        · rw [hx] at hh
          simp_all
        · simp only [hx] at hh
          rcases hy : constraintPropF m g₂ with - | e
          · simp_all
          · rcases e with e | g₃
            · simp only [hy] at hh
              simp_all
            · simp only [hy] at hh
              have : g₂ = h := by simp_all
              subst this
              exact calcGo_sound ih.2 positions g hpre
                (fun p hp => absurd (mem_positions p) hp) (calcSetsF_eq m g ▸ hx)

/-! ### Valid complete grids: pigeonhole facts -/

theorem fixed_injective : Function.Injective Cell.fixed := by
  intro a b h
  injection h

theorem fullDigits_card : fullDigits.card = 9 := by decide

theorem gridValid_of_complete {g : Grid} (hcons : gridConsistent g)
    (hfix : fixOK g) (hcomp : complete g) : gridValid g := by
  intro u hu d hd
  obtain ⟨hlen, hnodup, hpeers⟩ := units27_facts u hu
  have hinj : ∀ p ∈ u, ∀ q ∈ u, g p.1 p.2 = g q.1 q.2 → p = q := by
    intro p hp q hq heq
    by_contra hne
    exact hcons p q (hpeers p hp q hq hne) (hcomp p) heq
  have hlnd : (u.map fun p => g p.1 p.2).Nodup := List.Nodup.map_on hinj hnodup
  have hmem : ∀ x ∈ u.map fun p => g p.1 p.2, ∃ e ∈ fullDigits, x = Cell.fixed e := by
    intro x hx
    obtain ⟨p, hp, hpx⟩ := List.mem_map.mp hx
    obtain ⟨e, he⟩ := isFixed_iff.mp (hcomp p)
    refine ⟨e, ?_, by rw [← hpx, he]⟩
    have := hfix p
    rw [he] at this
    simpa [cellDigitOK] using this
  have himg : (u.map fun p => g p.1 p.2).toFinset = fullDigits.image Cell.fixed := by
    apply Finset.eq_of_subset_of_card_le
    · intro x hx
      obtain ⟨e, he1, he2⟩ := hmem x (List.mem_toFinset.mp hx)
      exact Finset.mem_image.mpr ⟨e, he1, he2.symm⟩
    · rw [Finset.card_image_of_injective _ fixed_injective,
        List.toFinset_card_of_nodup hlnd, List.length_map, hlen, fullDigits_card]
  have hdl : Cell.fixed d ∈ u.map fun p => g p.1 p.2 := by
    rw [← List.mem_toFinset, himg]
    exact Finset.mem_image_of_mem _ hd
  exact List.count_eq_one_of_mem hlnd hdl

theorem rowUnit_mem_units27 (i : Fin 9) : rowUnit i ∈ units27 := by
  simp only [units27, List.mem_append]
  exact Or.inl (Or.inl (List.mem_map.mpr ⟨i, List.mem_finRange _, rfl⟩))

theorem mem_rowUnit (p : Pos) : p ∈ rowUnit p.1 :=
  List.mem_map.mpr ⟨p.2, List.mem_finRange _, rfl⟩

/-- On a valid complete grid, every cell's digit is one of `1`..`9`. -/
theorem sol_digit_mem {T : Grid} (hTc : complete T) (hTv : gridValid T)
    (p : Pos) : ∃ d ∈ fullDigits, T p.1 p.2 = Cell.fixed d := by
  have hu := rowUnit_mem_units27 p.1
  have hlen : (rowUnit p.1).length = 9 := (units27_facts _ hu).1
  have hcount : ∀ d ∈ fullDigits,
      ((rowUnit p.1).map fun q => T q.1 q.2).count (Cell.fixed d) = 1 :=
    fun d hd => hTv _ hu d hd
  -- the multiset of the unit's cells is exactly `fixed` of the nine digits
  have hle : (fullDigits.val.map Cell.fixed) ≤
      (((rowUnit p.1).map fun q => T q.1 q.2) : Multiset Cell) := by
    rw [Multiset.le_iff_count]
    intro x
    by_cases hx : ∃ e ∈ fullDigits, x = Cell.fixed e
    · obtain ⟨e, he, hxe⟩ := hx
      subst hxe
      rw [Multiset.count_map_eq_count' _ _ fixed_injective,
        Multiset.count_eq_one_of_mem fullDigits.nodup he, Multiset.coe_count,
        hcount e he]
    · have : x ∉ fullDigits.val.map Cell.fixed := by
        intro hmem
        obtain ⟨e, he, hxe⟩ := Multiset.mem_map.mp hmem
        exact hx ⟨e, he, hxe.symm⟩
      rw [Multiset.count_eq_zero.mpr this]
      exact Nat.zero_le _
  have hcard : Multiset.card (((rowUnit p.1).map fun q => T q.1 q.2) : Multiset Cell) ≤
      Multiset.card (fullDigits.val.map Cell.fixed) := by
    rw [Multiset.card_map, Multiset.coe_card, List.length_map, hlen]
    show 9 ≤ fullDigits.card
    rw [fullDigits_card]
  have heq := Multiset.eq_of_le_of_card_le hle hcard
  have hpmem : T p.1 p.2 ∈ (((rowUnit p.1).map fun q => T q.1 q.2) : Multiset Cell) := by
    rw [Multiset.mem_coe]
    exact List.mem_map.mpr ⟨p, mem_rowUnit p, rfl⟩
  rw [← heq] at hpmem
  obtain ⟨e, he, hex⟩ := Multiset.mem_map.mp hpmem
  exact ⟨e, he, hex.symm⟩

theorem two_le_count_of_two_mem {α : Type} [DecidableEq α] {f : Pos → α} {x : α} :
    ∀ {u : List Pos} {p q : Pos}, p ∈ u → q ∈ u → p ≠ q → f p = x → f q = x →
      2 ≤ (u.map f).count x := by
  intro u
  induction u with
  | nil =>
    intro p q hp
    exact absurd hp (List.not_mem_nil p)
  | cons a u ih =>
    intro p q hp hq hne hfp hfq
    have hcons : ((a :: u).map f).count x = (u.map f).count x +
        if f a = x then 1 else 0 := by
      simp [List.count_cons]
    by_cases hpa : p = a
    · subst hpa
      have hqu : q ∈ u := by
        rcases List.mem_cons.mp hq with h | h
        · exact absurd h.symm hne
        · exact h
      have h1 : 0 < (u.map f).count x := by
        rcases Nat.eq_zero_or_pos ((u.map f).count x) with h | h
        · exfalso
          have := List.count_eq_zero.mp h
          exact this (List.mem_map.mpr ⟨q, hqu, hfq⟩)
        · exact h
      rw [hcons, if_pos hfp]
      omega
    · by_cases hqa : q = a
      · subst hqa
        have hpu : p ∈ u := by
          rcases List.mem_cons.mp hp with h | h
          · exact absurd h hpa
          · exact h
        have h1 : 0 < (u.map f).count x := by
          rcases Nat.eq_zero_or_pos ((u.map f).count x) with h | h
          · exfalso
            have := List.count_eq_zero.mp h
            exact this (List.mem_map.mpr ⟨p, hpu, hfp⟩)
          · exact h
        rw [hcons, if_pos hfq]
        omega
      · have hpu : p ∈ u := by
          rcases List.mem_cons.mp hp with h | h
          · exact absurd h hpa
          · exact h
        have hqu : q ∈ u := by
          rcases List.mem_cons.mp hq with h | h
          · exact absurd h hqa
          · exact h
        have := ih hpu hqu hne hfp hfq
        rw [hcons]
        omega

/-- On a valid complete grid, two cells of a unit never hold the same digit. -/
theorem valid_no_peer_dup {T : Grid} (hTc : complete T) (hTv : gridValid T)
    {p q : Pos} (hpq : peers p q) {d : Nat} (hp : T p.1 p.2 = Cell.fixed d)
    (hq : T q.1 q.2 = Cell.fixed d) : False := by
  obtain ⟨u, hu, hpu, hqu⟩ := peers_mem_unit hpq
  have hdfull : d ∈ fullDigits := by
    obtain ⟨e, he, hpe⟩ := sol_digit_mem hTc hTv p
    rw [hp] at hpe
    have : d = e := by injection hpe
    exact this ▸ he
  have h1 := hTv u hu d hdfull
  have h2 := two_le_count_of_two_mem (f := fun q : Pos => T q.1 q.2)
    (x := Cell.fixed d) hpu hqu hpq.1 hp hq
  omega

/-! ### Completeness: the search never misses a solution -/

theorem admits_setFixed {g T : Grid} {r c : Fin 9} {d : Nat}
    (ha : admits g T) (hT : T r c = Cell.fixed d) :
    admits (setCell g r c (Cell.fixed d)) T := by
  constructor
  · intro p e hp
    by_cases hpc : p.1 = r ∧ p.2 = c
    · have : p = ((r, c) : Pos) := Prod.ext hpc.1 hpc.2
      subst this
      rw [show setCell g r c (Cell.fixed d) ((r, c) : Pos).1 ((r, c) : Pos).2 =
        Cell.fixed d from setCell_self ..] at hp
      have : d = e := by injection hp
      subst this
      exact hT
    · rw [setCell_ne g r c _ hpc] at hp
      exact ha.1 p e hp
  · intro p s hp
    by_cases hpc : p.1 = r ∧ p.2 = c
    · have : p = ((r, c) : Pos) := Prod.ext hpc.1 hpc.2
      subst this
      rw [show setCell g r c (Cell.fixed d) ((r, c) : Pos).1 ((r, c) : Pos).2 =
        Cell.fixed d from setCell_self ..] at hp
      exact absurd hp (by intro hcon; exact Cell.noConfusion hcon)
    · rw [setCell_ne g r c _ hpc] at hp
      exact ha.2 p s hp

theorem admits_setCands {g T : Grid} {r c : Fin 9} {s : Finset Nat}
    (ha : admits g T) (hex : ∃ d ∈ s, T r c = Cell.fixed d) :
    admits (setCell g r c (Cell.cands s)) T := by
  constructor
  · intro p e hp
    by_cases hpc : p.1 = r ∧ p.2 = c
    · have : p = ((r, c) : Pos) := Prod.ext hpc.1 hpc.2
      subst this
      rw [show setCell g r c (Cell.cands s) ((r, c) : Pos).1 ((r, c) : Pos).2 =
        Cell.cands s from setCell_self ..] at hp
      exact absurd hp (by intro hcon; exact Cell.noConfusion hcon)
    · rw [setCell_ne g r c _ hpc] at hp
      exact ha.1 p e hp
  · intro p t hp
    by_cases hpc : p.1 = r ∧ p.2 = c
    · have : p = ((r, c) : Pos) := Prod.ext hpc.1 hpc.2
      subst this
      rw [show setCell g r c (Cell.cands s) ((r, c) : Pos).1 ((r, c) : Pos).2 =
        Cell.cands s from setCell_self ..] at hp
      have : s = t := by injection hp
      subst this
      exact hex
    · rw [setCell_ne g r c _ hpc] at hp
      exact ha.2 p t hp

theorem checkF_complete {T : Grid} (hTc : complete T) (hTv : gridValid T)
    {n : Nat} (hskC : SKComplete T n) (g : Grid) (r c : Fin 9)
    (ha : admits g T) (hg : unknowns g ≤ n) :
    ∃ g', checkF n g r c = some (Except.ok g') ∧ admits g' T := by
  rcases hb : cellBase (g r c) with - | base
  · exact ⟨g, checkF_eq_of_base_none n hb, ha⟩
  · have hfix := isFixed_false_of_cellBase hb
    obtain ⟨dT, hdfull, hdT⟩ := sol_digit_mem hTc hTv (r, c)
    rw [show T ((r, c) : Pos).1 ((r, c) : Pos).2 = T r c from rfl] at hdT
    have hdbase : dT ∈ base := by
      rcases cellBase_cases hb with ⟨-, hfull⟩ | hcell
      · exact hfull ▸ hdfull
      · obtain ⟨e, hes, heT⟩ := ha.2 (r, c) base
          (by rw [show g ((r, c) : Pos).1 ((r, c) : Pos).2 = g r c from rfl]; exact hcell)
        rw [show T ((r, c) : Pos).1 ((r, c) : Pos).2 = T r c from rfl, hdT] at heT
        have he' : e = dT := by
          injection heT with h'
          exact h'.symm
        exact he' ▸ hes
    have hdnimp : dT ∉ impossibleSet g r c := by
      intro hmem
      obtain ⟨q, hqfix, hqcase⟩ := peer_or_self_of_mem_impossible hmem
      rcases hqcase with hqc | hqp
      · subst hqc
        rw [show g ((r, c) : Pos).1 ((r, c) : Pos).2 = g r c from rfl] at hqfix
        rw [hqfix] at hfix
        simp [Cell.isFixed] at hfix
      · have hTq := ha.1 q dT hqfix
        exact valid_no_peer_dup hTc hTv hqp hdT hTq
    have hdposs : dT ∈ possibleSet g r c := by
      rw [possibleSet_eq hb]
      exact Finset.mem_sdiff.mpr ⟨hdbase, hdnimp⟩
    rcases possible_trichotomy g r c with ⟨d0, hp0⟩ | hemp | ⟨hcard, hemp⟩
    · have hd0 : dT = d0 := by
        rw [hp0] at hdposs
        exact Finset.mem_singleton.mp hdposs
      subst hd0
      rw [checkF_eq_commit n hb hp0]
      have ha' : admits (setCell g r c (Cell.fixed dT)) T := admits_setFixed ha hdT
      have h1 := unknowns_set_fixed hfix dT
      have h2 : 0 < unknowns g := unknowns_pos (p := (r, c)) hfix
      obtain ⟨g₂, hg₂, ha₂⟩ := hskC _ ha' (by omega)
      exact ⟨g₂, hg₂, ha₂⟩
    · rw [hemp] at hdposs
      exact absurd hdposs (Finset.not_mem_empty dT)
    · rw [checkF_eq_store n hb hcard hemp]
      refine ⟨_, rfl, admits_setCands ha ⟨dT, hdposs, hdT⟩⟩

theorem calcGo_complete {T : Grid} (hTc : complete T) (hTv : gridValid T)
    {n : Nat} (hskC : SKComplete T n) :
    ∀ (ps : List Pos) (g : Grid), admits g T → unknowns g ≤ n →
      ∃ g', calcGoGen (checkF n) g ps = some (Except.ok g') ∧ admits g' T := by
  intro ps
  induction ps with
  | nil =>
    intro g ha hg
    exact ⟨g, calcGo_nil _ g, ha⟩
  | cons p ps ih =>
    intro g ha hg
    obtain ⟨g', hg', ha'⟩ := checkF_complete hTc hTv hskC g p.1 p.2 ha hg
    have hle : unknowns g' ≤ unknowns g :=
      (checkF_adeq (solve_adeq n).2 g p.1 p.2 hg).2 g' hg'
    obtain ⟨h, hh, hah⟩ := ih g' ha' (le_trans hle hg)
    exact ⟨h, by rw [calcGo_cons_ok ps hg']; exact hh, hah⟩

theorem tryVals_complete {T : Grid} {n : Nat} (hsvC : SVComplete T n) :
    ∀ (vs : List Nat) (g : Grid) (r c : Fin 9), unknowns g ≤ n →
      (g r c).isFixed = false →
      (∃ d ∈ vs, admits (setCell g r c (Cell.fixed d)) T) →
      ∃ h, tryValsGen (solveF n) g r c vs = some (Except.ok h) := by
  intro vs
  induction vs with
  | nil =>
    intro g r c hg hfix hex
    obtain ⟨d, hd, -⟩ := hex
    exact absurd hd (List.not_mem_nil d)
  | cons v vs ih =>
    intro g r c hg hfix hex
    have h1 := unknowns_set_fixed hfix v
    have h2 : 0 < unknowns g := unknowns_pos (p := (r, c)) hfix
    obtain ⟨⟨x, hx⟩, -⟩ := (solve_adeq n).1 (setCell g r c (Cell.fixed v)) (by omega)
    rcases x with e | h'
    · -- this branch fails; the driver value must be among the rest
      obtain ⟨d, hd, hda⟩ := hex
      rcases List.mem_cons.mp hd with hdv | hdvs
      · subst hdv
        obtain ⟨h, hh⟩ := hsvC (setCell g r c (Cell.fixed d)) hda (by omega)
        rw [hx] at hh
        exact absurd hh (by simp)
      · rw [tryVals_cons_error vs hx]
        exact ih g r c hg hfix ⟨d, hdvs, hda⟩
    · exact ⟨h', tryVals_cons_ok vs hx⟩

theorem cpGo_complete {T : Grid} {n : Nat} (hsvC : SVComplete T n) :
    ∀ (ps : List Pos) (g : Grid), admits g T → unknowns g ≤ n →
      ∃ h, cpGoGen (solveF n) g ps = some (Except.ok h) := by
  intro ps
  induction ps with
  | nil =>
    intro g ha hg
    exact ⟨g, cpGo_nil _ g⟩
  | cons p ps ih =>
    intro g ha hg
    rcases hgp : g p.1 p.2 with - | d | s
    · rw [cpGo_cons_blank ps hgp]
      exact ih g ha hg
    · rw [cpGo_cons_fixed ps hgp]
      exact ih g ha hg
    · rw [cpGo_cons_cands ps hgp]
      obtain ⟨d, hds, hdT⟩ := ha.2 p s hgp
      have hfix : (g p.1 p.2).isFixed = false := by
        rw [hgp]
        rfl
      refine tryVals_complete hsvC (candList s) g p.1 p.2 hg hfix
        ⟨d, mem_candList.mpr hds, ?_⟩
      exact admits_setFixed ha hdT

theorem solve_complete {T : Grid} (hTc : complete T) (hTv : gridValid T) :
    ∀ n : Nat, SVComplete T n ∧ SKComplete T n := by
  intro n
  induction n with
  | zero =>
    constructor <;> intro g ha hg <;> exact absurd hg (by omega)
  | succ m ih =>
    constructor
    · intro g ha hg
      rw [solveF_succ]
      obtain ⟨g₂, hg₂, ha₂⟩ := calcGo_complete hTc hTv ih.2 positions g ha (by omega)
      rw [← calcSetsF_eq] at hg₂
      have hle : unknowns g₂ ≤ unknowns g :=
        (calcGo_adeq (solve_adeq m).2 positions g (by omega)).2 g₂
          (calcSetsF_eq m g ▸ hg₂)
      obtain ⟨h, hh⟩ := cpGo_complete ih.1 positions g₂ ha₂ (by omega)
      rw [← constraintPropF_eq] at hh
      refine ⟨h, ?_⟩
      simp only [hg₂]
      exact hh
    · intro g ha hg
      rw [solveKeepF_succ]
      obtain ⟨g₂, hg₂, ha₂⟩ := calcGo_complete hTc hTv ih.2 positions g ha (by omega)
      rw [← calcSetsF_eq] at hg₂
      have hle : unknowns g₂ ≤ unknowns g :=
        (calcGo_adeq (solve_adeq m).2 positions g (by omega)).2 g₂
          (calcSetsF_eq m g ▸ hg₂)
      obtain ⟨h, hh⟩ := cpGo_complete ih.1 positions g₂ ha₂ (by omega)
      rw [← constraintPropF_eq] at hh
      refine ⟨g₂, ?_, ha₂⟩
      simp only [hg₂, hh]

/-! ### The instrumented pass: an empty set computed on this instance
forces the contradiction -/

theorem sawGo_nil (cs : Grid → Fin 9 → Fin 9 → Bool)
    (chk : Grid → Fin 9 → Fin 9 → SRes) (g : Grid) :
    calcGoSawGen cs chk g [] = false := rfl

theorem sawGo_cons (cs : Grid → Fin 9 → Fin 9 → Bool)
    (chk : Grid → Fin 9 → Fin 9 → SRes) (g : Grid) (p : Pos) (ps : List Pos) :
    calcGoSawGen cs chk g (p :: ps) =
      (cs g p.1 p.2 ||
        match chk g p.1 p.2 with
        | some (Except.ok g') => calcGoSawGen cs chk g' ps
        | _ => false) := rfl

theorem checkSaw_imp {n : Nat}
    (hsk : ∀ g, solveSawF n g = true →
      solveKeepF n g = some (Except.error ()) ∨ solveKeepF n g = none) :
    ∀ (g : Grid) (r c : Fin 9), checkSawF n g r c = true →
      checkF n g r c = some (Except.error ()) ∨ checkF n g r c = none := by
  intro g r c hfl
  rcases hb : cellBase (g r c) with - | base
  · rw [checkSawF_eq_of_base_none n hb] at hfl
    exact absurd hfl (by simp)
  · rcases possible_trichotomy g r c with ⟨d, hp⟩ | hemp | ⟨hcard, hemp⟩
    · rw [checkSawF_eq_commit n hb hp] at hfl
      rw [checkF_eq_commit n hb hp]
      exact hsk _ hfl
    · exact Or.inl (checkF_eq_error n hb hemp)
    · rw [checkSawF_eq_store n hb hcard hemp] at hfl
      exact absurd hfl (by simp)

theorem calcGoSaw_imp {n : Nat}
    (hck : ∀ (g : Grid) (r c : Fin 9), checkSawF n g r c = true →
      checkF n g r c = some (Except.error ()) ∨ checkF n g r c = none) :
    ∀ (ps : List Pos) (g : Grid),
      calcGoSawGen (checkSawF n) (checkF n) g ps = true →
      calcGoGen (checkF n) g ps = some (Except.error ()) ∨
        calcGoGen (checkF n) g ps = none := by
  intro ps
  induction ps with
  | nil =>
    intro g hfl
    rw [sawGo_nil] at hfl
    exact absurd hfl (by simp)
  | cons p ps ih =>
    intro g hfl
    rw [sawGo_cons] at hfl
    rcases Bool.or_eq_true_iff.mp hfl with hl | hr
    · rcases hck g p.1 p.2 hl with he | hn
      · exact Or.inl (calcGo_cons_error ps he)
      · exact Or.inr (calcGo_cons_none ps hn)
    · rcases hx : checkF n g p.1 p.2 with - | e
      · rw [hx] at hr
        exact absurd hr (by simp)
      · rcases e with e | g'
        · rw [hx] at hr
          exact absurd hr (by simp)
        · rw [hx] at hr
          rcases ih g' hr with he | hn
          · exact Or.inl ((calcGo_cons_ok ps hx).trans he)
          · exact Or.inr ((calcGo_cons_ok ps hx).trans hn)

theorem solveSaw_fail : ∀ (n : Nat) (g : Grid), solveSawF n g = true →
    solveKeepF n g = some (Except.error ()) ∨ solveKeepF n g = none := by
  intro n
  induction n with
  | zero =>
    intro g h
    have : solveSawF 0 g = false := rfl
    simp_all
  | succ m ih =>
    intro g h
    rw [solveSawF_succ, calcSetsSawF_eq] at h
    have hgo := calcGoSaw_imp (checkSaw_imp ih) positions g h
    rw [← calcSetsF_eq] at hgo
    rw [solveKeepF_succ]
    rcases hgo with he | hn
    · exact Or.inl (by simp [he])
    · exact Or.inr (by simp [hn])

theorem calcSetsSaw_fail {n : Nat} {g : Grid} (hg : unknowns g ≤ n)
    (hfl : calcSetsSawF n g = true) :
    calcSetsF n g = some (Except.error ()) := by
  rw [calcSetsSawF_eq] at hfl
  have hgo := calcGoSaw_imp (checkSaw_imp (solveSaw_fail n)) positions g hfl
  rw [← calcSetsF_eq] at hgo
  rcases hgo with he | hn
  · exact he
  · obtain ⟨x, hx⟩ := (calcGo_adeq (solve_adeq n).2 positions g hg).1
    rw [← calcSetsF_eq] at hx
    rw [hx] at hn
    exact absurd hn (by simp)

/-! ### Prefix lemmas for the two loops -/

theorem calcGo_append_ok {chk : Grid → Fin 9 → Fin 9 → SRes} :
    ∀ (ps₁ : List Pos) (g g₁ : Grid) (ps₂ : List Pos),
      calcGoGen chk g ps₁ = some (Except.ok g₁) →
      calcGoGen chk g (ps₁ ++ ps₂) = calcGoGen chk g₁ ps₂ := by
  intro ps₁
  induction ps₁ with
  | nil =>
    intro g g₁ ps₂ h
    rw [calcGo_nil] at h
    have : g = g₁ := by simp_all
    subst this
    rfl
  | cons p ps ih =>
    intro g g₁ ps₂ h
    rcases hx : chk g p.1 p.2 with - | e
    · rw [calcGo_cons_none ps hx] at h
      simp_all
    · rcases e with e | g'
      · rw [calcGo_cons_error ps hx] at h
        simp_all
      · rw [calcGo_cons_ok ps hx] at h
        rw [List.cons_append, calcGo_cons_ok (ps ++ ps₂) hx]
        exact ih g' g₁ ps₂ h

theorem cpGo_skip {slv : Grid → SRes} {g : Grid} :
    ∀ (ps₁ : List Pos), (∀ p ∈ ps₁, (g p.1 p.2).isFixed = true) →
      ∀ (rest : List Pos), cpGoGen slv g (ps₁ ++ rest) = cpGoGen slv g rest := by
  intro ps₁
  induction ps₁ with
  | nil =>
    intro hfix rest
    rfl
  | cons p ps ih =>
    intro hfix rest
    obtain ⟨d, hd⟩ := isFixed_iff.mp (hfix p (List.mem_cons_self p ps))
    rw [List.cons_append, cpGo_cons_fixed (ps ++ rest) hd]
    exact ih (fun q hq => hfix q (List.mem_cons_of_mem p hq)) rest

/-- The scanning loops of `check` collect exactly the union described by
the spec: the fixed digits of the row, the column, and the block with
origin `(row - row%3, column - column%3)`. -/
theorem impossible_eq_specUnion (g : Grid) (r c : Fin 9) :
    impossibleSet g r c = specUnion g r c := by
  ext d
  rw [mem_impossibleSet]
  simp only [specUnion, Finset.mem_union, fixedDigitsIn, List.mem_toFinset,
    List.mem_filterMap, List.mem_map, List.mem_flatMap, cellDigit_eq_some]
  constructor
  · rintro (⟨a, ha⟩ | ⟨a, ha⟩ | ⟨a, b, ha⟩)
    · exact Or.inl (Or.inr ⟨g a c, ⟨a, List.mem_finRange _, rfl⟩, ha⟩)
    · exact Or.inl (Or.inl ⟨g r a, ⟨a, List.mem_finRange _, rfl⟩, ha⟩)
    · refine Or.inr ⟨g (blockIdx r a) (blockIdx c b),
        ⟨a, List.mem_finRange _, b, List.mem_finRange _, ?_⟩, ha⟩
      have e1 : (⟨r.val - r.val % 3 + a.val, by
          have := r.isLt; have := a.isLt; omega⟩ : Fin 9) = blockIdx r a :=
        Fin.ext (blockIdx_val r a).symm
      have e2 : (⟨c.val - c.val % 3 + b.val, by
          have := c.isLt; have := b.isLt; omega⟩ : Fin 9) = blockIdx c b :=
        Fin.ext (blockIdx_val c b).symm
      rw [e1, e2]
  · rintro ((⟨x, ⟨a, -, hx⟩, hxd⟩ | ⟨x, ⟨a, -, hx⟩, hxd⟩) | ⟨x, ⟨a, -, b, -, hx⟩, hxd⟩)
    · exact Or.inr (Or.inl ⟨a, hx ▸ hxd⟩)
    · exact Or.inl ⟨a, hx ▸ hxd⟩
    · refine Or.inr (Or.inr ⟨a, b, ?_⟩)
      have e1 : (⟨r.val - r.val % 3 + a.val, by
          have := r.isLt; have := a.isLt; omega⟩ : Fin 9) = blockIdx r a :=
        Fin.ext (blockIdx_val r a).symm
      have e2 : (⟨c.val - c.val % 3 + b.val, by
          have := c.isLt; have := b.isLt; omega⟩ : Fin 9) = blockIdx c b :=
        Fin.ext (blockIdx_val c b).symm
      rw [e1, e2] at hx
      exact hx ▸ hxd

/-! ## The claims -/

/-- Claim C1, counterexample to the claim as stated: `solve` can return a
grid some of whose units do not contain each digit 1–9 exactly once — on
the already-complete input with every cell fixed to 1, `solve` returns the
input unchanged. -/
theorem claimC1_counterexample :
    solve gAll1 = some (Except.ok gAll1) ∧ ¬ gridValid gAll1 :=
  ⟨sresEqB_eq (by decide), by decide⟩

/-- Claim C1 (amended): for every input grid whose digit cells hold digits
1–9 with no digit repeated inside a row, a column or a block, and whose
stored candidate sets contain only digits 1–9, every grid returned by
`solve` has each of the 27 units contain each digit 1–9 exactly once. -/
theorem claimC1_validity (g S : Grid) (h1 : gridConsistent g) (h2 : fixOK g)
    (h3 : candsOK g) (hs : solve g = some (Except.ok S)) : gridValid S := by
  obtain ⟨hpre, hcomp⟩ := (solve_sound 82).1 g S ⟨h1, h2, h3⟩ hs
  exact gridValid_of_complete hpre.1 hpre.2.1 hcomp

/-- Witness for C1 (amended): the hypotheses are satisfiable — solving
`gVal0` (one blank cell) returns the valid grid `gVal`. -/
theorem claimC1_validity_witness :
    gridConsistent gVal0 ∧ fixOK gVal0 ∧ candsOK gVal0 ∧
      solve gVal0 = some (Except.ok gVal) ∧ gridValid gVal := by
  have hs : solve gVal0 = some (Except.ok gVal) := sresEqB_eq (by decide)
  exact ⟨by decide, by decide, by decide, hs,
    claimC1_validity gVal0 gVal (by decide) (by decide) (by decide) hs⟩

/-- Claim C2, counterexample to the claim as stated: the all-2 grid has no
valid solution extending its digits, yet `solve` returns it instead of
raising `SudokuContradiction`. -/
theorem claimC2_counterexample :
    solve gAll2 = some (Except.ok gAll2) ∧
      ¬ ∃ T, complete T ∧ gridValid T ∧ agreesFixed gAll2 T := by
  refine ⟨sresEqB_eq (by decide), ?_⟩
  rintro ⟨T, hTc, hTv, hTa⟩
  have hT : ∀ p : Pos, T p.1 p.2 = Cell.fixed 2 := fun p => hTa p 2 rfl
  have h1 := hTv (rowUnit 0) (rowUnit_mem_units27 0) 1 (by decide)
  have hzero : ((rowUnit 0).map fun p => T p.1 p.2).count (Cell.fixed 1) = 0 := by
    rw [List.count_eq_zero]
    intro hmem
    obtain ⟨p, hp, hpe⟩ := List.mem_map.mp hmem
    rw [hT p] at hpe
    exact absurd hpe (by decide)
  omega

/-- Claim C2 (amended): for every input grid of blanks and digits only,
whose digits are 1–9 and unit-consistent: if some complete valid grid
agrees with the input's digits then `solve` returns such a solution, and
otherwise `solve` raises `SudokuContradiction`. -/
theorem claimC2_existence (g : Grid) (hpr : pristine g)
    (hcons : gridConsistent g) (hfox : fixOK g) :
    ((∃ T, complete T ∧ gridValid T ∧ agreesFixed g T) →
      ∃ S, solve g = some (Except.ok S) ∧ complete S ∧ gridValid S ∧
        agreesFixed g S) ∧
    ((¬ ∃ T, complete T ∧ gridValid T ∧ agreesFixed g T) →
      solve g = some (Except.error ())) := by
  have hcand : candsOK g := by
    intro p
    rcases hpr p with h | h
    · rw [h]
      rfl
    · obtain ⟨d, hd⟩ := isFixed_iff.mp h
      rw [hd]
      rfl
  constructor
  · rintro ⟨T, hTc, hTv, hTa⟩
    have hadm : admits g T := by
      refine ⟨fun p d hp => hTa p d hp, ?_⟩
      intro p s hp
      rcases hpr p with h | h
      · rw [hp] at h
        exact absurd h (by intro hcon; exact Cell.noConfusion hcon)
      · rw [hp] at h
        simp [Cell.isFixed] at h
    obtain ⟨S, hS⟩ := (solve_complete hTc hTv 82).1 g hadm
      (by have := unknowns_le81 g; omega)
    obtain ⟨hpreS, hcompS⟩ := (solve_sound 82).1 g S ⟨hcons, hfox, hcand⟩ hS
    exact ⟨S, hS, hcompS, gridValid_of_complete hpreS.1 hpreS.2.1 hcompS,
      fun p d hp => (solve_mono 82).1 g S hS p d hp⟩
  · intro hno
    obtain ⟨x, hx⟩ := ((solve_adeq 82).1 g (by have := unknowns_le81 g; omega)).1
    rcases x with e | S
    · rcases e
      exact hx
    · exfalso
      obtain ⟨hpreS, hcompS⟩ := (solve_sound 82).1 g S ⟨hcons, hfox, hcand⟩ hx
      exact hno ⟨S, hcompS, gridValid_of_complete hpreS.1 hpreS.2.1 hcompS,
        fun p d hp => (solve_mono 82).1 g S hx p d hp⟩

/-- Witness for C2 (amended): the hypotheses are satisfiable — on the
solvable grid `gVal` the first branch applies. -/
theorem claimC2_existence_witness :
    ∃ S, solve gVal = some (Except.ok S) ∧ complete S ∧ gridValid S ∧
      agreesFixed gVal S :=
  (claimC2_existence gVal (by decide) (by decide) (by decide)).1
    ⟨gVal, by decide, by decide, fun p d hp => hp⟩

/-- Claim C3: every digit cell of the input grid holds the identical digit
in any grid returned by `solve`. -/
theorem claimC3_givens (g S : Grid) (r c : Fin 9) (d : Nat)
    (hs : solve g = some (Except.ok S)) (hg : g r c = Cell.fixed d) :
    S r c = Cell.fixed d :=
  (solve_mono 82).1 g S hs (r, c) d hg

/-- Witness for C3: cell (0,1) of `gVal0` holds the digit 2 and still does
in the returned grid. -/
theorem claimC3_givens_witness :
    solve gVal0 = some (Except.ok gVal) ∧ gVal0 0 1 = Cell.fixed 2 ∧
      gVal 0 1 = Cell.fixed 2 := by
  have hs : solve gVal0 = some (Except.ok gVal) := sresEqB_eq (by decide)
  exact ⟨hs, by decide, claimC3_givens gVal0 gVal 0 1 2 hs (by decide)⟩

/-- Claim C4, counterexample to the claim as stated: for a cell storing a
candidate set, `check` subtracts the fixed digits from the stored set, not
from `{1..9}` — at (0,0) of `gC4x` the computed candidate set is `{1, 5}`
while the spec's formula gives `{1..9}`. -/
theorem claimC4_counterexample :
    (gC4x 0 0).isFixed = false ∧
      possibleSet gC4x 0 0 ≠ specCandidates gC4x 0 0 := by
  constructor <;> decide

/-- Claim C4 (amended): for every non-digit cell, `check` computes the
candidate set as the cell's base set — `{1..9}` for a blank cell, the
stored set for a set-holding cell — minus the union of all fixed digits in
the cell's row, its column, and the block with origin
`(row - row%3, column - column%3)`. -/
theorem claimC4_candidates (g : Grid) (r c : Fin 9) (base : Finset Nat)
    (hb : cellBase (g r c) = some base) :
    possibleSet g r c = base \ specUnion g r c := by
  rw [possibleSet_eq hb, impossible_eq_specUnion]

/-- Witness for C4 (amended) at the set-holding cell of `gC4x`. -/
theorem claimC4_candidates_witness :
    cellBase (gC4x 0 0) = some {1, 5} ∧
      possibleSet gC4x 0 0 = {1, 5} \ specUnion gC4x 0 0 :=
  ⟨by decide, claimC4_candidates gC4x 0 0 {1, 5} (by decide)⟩

/-- Claim C5: when the computed candidate set of a non-digit cell is the
singleton `{d}`, `check` commits `d` and re-runs full propagation
(`calculate_sets`) on the whole grid; if `check` returns normally, the
grid it leaves behind is exactly the grid produced by that propagation of
the committed grid — nothing beyond propagation changes it (the nested
`constraint_prop` works on deep copies and its value is discarded). -/
theorem claimC5_commit (m : Nat) (g : Grid) (r c : Fin 9) (base : Finset Nat)
    (d : Nat) (g' : Grid) (hb : cellBase (g r c) = some base)
    (hp : possibleSet g r c = {d})
    (hchk : checkF (m + 1) g r c = some (Except.ok g')) :
    calcSetsF m (setCell g r c (Cell.fixed d)) = some (Except.ok g') ∧
      g' r c = Cell.fixed d := by
  rw [checkF_eq_commit (m + 1) hb hp, solveKeepF_succ] at hchk
  rcases hx : calcSetsF m (setCell g r c (Cell.fixed d)) with - | e
  · rw [hx] at hchk
    exact absurd hchk (by simp)
  · rcases e with e | g₂
    · rw [hx] at hchk
      exact absurd hchk (by simp)
    · simp only [hx] at hchk
      rcases hy : constraintPropF m g₂ with - | e
      · simp only [hy] at hchk
        exact absurd hchk (by simp)
      · rcases e with e | g₃
        · simp only [hy] at hchk
          exact absurd hchk (by simp)
        · simp only [hy] at hchk
          have hg2 : g₂ = g' := by simp_all
          subst hg2
          refine ⟨rfl, ?_⟩
          have := calcGo_mono (solve_mono m).2 positions _
            (calcSetsF_eq m _ ▸ hx) ((r, c) : Pos) d (setCell_self g r c _)
          exact this

/-- Witness for C5: on `gC5w` the cell (0,0) has the unique candidate 7;
`check` commits it and leaves exactly the propagated grid `gC5wc`. -/
theorem claimC5_commit_witness :
    cellBase (gC5w 0 0) = some {7} ∧ possibleSet gC5w 0 0 = {7} ∧
      checkF 1 gC5w 0 0 = some (Except.ok gC5wc) ∧
      calcSetsF 0 (setCell gC5w 0 0 (Cell.fixed 7)) = some (Except.ok gC5wc) ∧
      gC5wc 0 0 = Cell.fixed 7 := by
  have hchk : checkF 1 gC5w 0 0 = some (Except.ok gC5wc) := sresEqB_eq (by decide)
  have h := claimC5_commit 0 gC5w 0 0 {7} 7 gC5wc (by decide) (by decide) hchk
  exact ⟨by decide, by decide, hchk, h.1, h.2⟩

/-- Claim C6, counterexample to the claim as stated: `calculate_sets`
raises on `gC6x` although no candidate set computed on that grid instance
is empty — the contradiction arises from the search of the commitment's
nested `self.solve()`, whose failures happen on deep copies. -/
theorem claimC6_counterexample :
    calcSetsF 82 gC6x = some (Except.error ()) ∧ calcSetsSawF 82 gC6x = false :=
  ⟨sresEqB_eq (by decide), by decide⟩

/-- Claim C6 (amended): if some cell's candidate set computed during the
pass on this grid instance is empty then `calculate_sets` raises
`SudokuContradiction`; and the error aborts the pass immediately — once a
`check` raises, the pass raises no matter what cells would follow.  (The
converse fails: see the counterexample — the pass can also raise when a
commitment's nested solve exhausts its search on copies.) -/
theorem claimC6_contradiction :
    (∀ (n : Nat) (g : Grid), unknowns g ≤ n → calcSetsSawF n g = true →
      calcSetsF n g = some (Except.error ())) ∧
    (∀ (n : Nat) (ps₁ : List Pos) (p : Pos) (ps₂ : List Pos) (g g₁ : Grid),
      calcGoGen (checkF n) g ps₁ = some (Except.ok g₁) →
      checkF n g₁ p.1 p.2 = some (Except.error ()) →
      calcGoGen (checkF n) g (ps₁ ++ p :: ps₂) = some (Except.error ())) := by
  constructor
  · intro n g hg hfl
    exact calcSetsSaw_fail hg hfl
  · intro n ps₁ p ps₂ g g₁ h1 h2
    rw [calcGo_append_ok ps₁ g g₁ (p :: ps₂) h1, calcGo_cons_error ps₂ h2]

/-- Witness for C6 (amended): on `gC6w`, whose cell (0,0) stores an empty
candidate set, the pass sees the empty set and raises; and the error at
the first cell short-circuits the rest of the pass. -/
theorem claimC6_contradiction_witness :
    calcSetsSawF 82 gC6w = true ∧ calcSetsF 82 gC6w = some (Except.error ()) ∧
      calcGoGen (checkF 82) gC6w ([] ++ ((0, 0) : Pos) :: []) =
        some (Except.error ()) := by
  have h2 : checkF 82 gC6w 0 0 = some (Except.error ()) := sresEqB_eq (by decide)
  exact ⟨by decide,
    claimC6_contradiction.1 82 gC6w (by decide) (by decide),
    claimC6_contradiction.2 82 [] ((0, 0) : Pos) [] gC6w gC6w rfl h2⟩

/-- Claim C7: the search of `constraint_prop` branches only on the first
set-holding cell in row-major scan order; candidates are tried in turn on
independent copies (value semantics of the embedding); the first
successful recursive solve is returned immediately, no matter what
candidates follow; and if every candidate of that cell fails, the search
raises `SudokuContradiction` to its caller. -/
theorem claimC7_branching :
    (∀ (n : Nat) (g : Grid) (ps₁ : List Pos) (r c : Fin 9) (ps₂ : List Pos)
        (s : Finset Nat),
      positions = ps₁ ++ ((r, c) : Pos) :: ps₂ →
      (∀ p ∈ ps₁, (g p.1 p.2).isFixed = true) →
      g r c = Cell.cands s →
      constraintPropF n g = tryValsGen (solveF n) g r c (candList s)) ∧
    (∀ (n : Nat) (g : Grid) (r c : Fin 9) (vs₁ : List Nat) (v : Nat)
        (vs₂ : List Nat) (h : Grid),
      (∀ w ∈ vs₁, solveF n (setCell g r c (Cell.fixed w)) =
        some (Except.error ())) →
      solveF n (setCell g r c (Cell.fixed v)) = some (Except.ok h) →
      tryValsGen (solveF n) g r c (vs₁ ++ v :: vs₂) = some (Except.ok h)) ∧
    (∀ (n : Nat) (g : Grid) (r c : Fin 9) (vs : List Nat),
      (∀ v ∈ vs, solveF n (setCell g r c (Cell.fixed v)) =
        some (Except.error ())) →
      tryValsGen (solveF n) g r c vs = some (Except.error ())) := by
  refine ⟨?_, ?_, ?_⟩
  · intro n g ps₁ r c ps₂ s hsplit hfix hcell
    rw [constraintPropF_eq, hsplit, cpGo_skip ps₁ hfix (((r, c) : Pos) :: ps₂),
      cpGo_cons_cands ps₂ hcell]
  · intro n g r c vs₁
    induction vs₁ with
    | nil =>
      intro v vs₂ h hfail hok
      rw [List.nil_append]
      exact tryVals_cons_ok vs₂ hok
    | cons w ws ih =>
      intro v vs₂ h hfail hok
      rw [List.cons_append,
        tryVals_cons_error (ws ++ v :: vs₂) (hfail w (List.mem_cons_self w ws))]
      exact ih v vs₂ h (fun u hu => hfail u (List.mem_cons_of_mem w hu)) hok
  · intro n g r c vs
    induction vs with
    | nil =>
      intro hfail
      exact tryVals_nil _ g r c
    | cons v vs ih =>
      intro hfail
      rw [tryVals_cons_error vs (hfail v (List.mem_cons_self v vs))]
      exact ih fun u hu => hfail u (List.mem_cons_of_mem v hu)

/-- Witness for C7: on `gC7w` the search branches on (0,0), the first
candidate 4 succeeds at once; and on `gC7f` the only candidate of (0,0)
fails, so the search raises. -/
theorem claimC7_branching_witness :
    constraintPropF 1 gC7w = tryValsGen (solveF 1) gC7w 0 0 (candList {4, 7}) ∧
      tryValsGen (solveF 1) gC7w 0 0 ([] ++ 4 :: [7]) =
        some (Except.ok (setCell gC7w 0 0 (Cell.fixed 4))) ∧
      tryValsGen (solveF 1) gC7f 0 0 [5] = some (Except.error ()) := by
  have hok : solveF 1 (setCell gC7w 0 0 (Cell.fixed 4)) =
      some (Except.ok (setCell gC7w 0 0 (Cell.fixed 4))) := sresEqB_eq (by decide)
  have hko : solveF 1 (setCell gC7f 0 0 (Cell.fixed 5)) =
      some (Except.error ()) := sresEqB_eq (by decide)
  refine ⟨?_, ?_, ?_⟩
  · exact claimC7_branching.1 1 gC7w [] 0 0 positions.tail {4, 7}
      (by decide) (by intro p hp; exact absurd hp (List.not_mem_nil p)) (by decide)
  · exact claimC7_branching.2.1 1 gC7w 0 0 [] 4 [7] _
      (by intro w hw; exact absurd hw (List.not_mem_nil w)) hok
  · refine claimC7_branching.2.2 1 gC7f 0 0 [5] ?_
    intro v hv
    have hv5 : v = 5 := by simpa using hv
    subst hv5
    exact hko

/-- Claim C8: `validate` on the all-3 grid (every unit invalid) prints the
nine row diagnostics and the nine column diagnostics, but raises a
`TypeError` at the first invalid square — the format string
`"...Square %s %s \n" % row_start` receives one argument for two
placeholders — so the claim that it reports without ever raising fails;
the spec itself flags this argument-arity slip as a latent defect. -/
theorem claimC8_validate_crash :
    validate gAll3 =
      ([VMsg.rowE 0, VMsg.rowE 1, VMsg.rowE 2, VMsg.rowE 3, VMsg.rowE 4,
        VMsg.rowE 5, VMsg.rowE 6, VMsg.rowE 7, VMsg.rowE 8,
        VMsg.colE 0, VMsg.colE 1, VMsg.colE 2, VMsg.colE 3, VMsg.colE 4,
        VMsg.colE 5, VMsg.colE 6, VMsg.colE 7, VMsg.colE 8], true) := by
  decide

/-- Claim C9: calling `check` on a cell that already holds a digit is a
no-op — the whole grid is returned unchanged and no error is raised. -/
theorem claimC9_fixed_noop (n : Nat) (g : Grid) (r c : Fin 9) (d : Nat)
    (h : g r c = Cell.fixed d) : checkF n g r c = some (Except.ok g) :=
  checkF_eq_of_base_none n (by rw [h]; rfl)

/-- Witness for C9 at the fixed cell (0,0) of `gVal`. -/
theorem claimC9_fixed_noop_witness :
    gVal 0 0 = Cell.fixed 1 ∧ checkF 82 gVal 0 0 = some (Except.ok gVal) :=
  ⟨by decide, claimC9_fixed_noop 82 gVal 0 0 1 (by decide)⟩

/-- Claim C10: candidate sets only shrink — after a successful `check` on
a cell storing the candidate set `s`, the cell holds either a digit drawn
from `s` or a candidate set included in `s`. -/
theorem claimC10_shrink (n : Nat) (g : Grid) (r c : Fin 9) (s : Finset Nat)
    (g' : Grid) (hc : g r c = Cell.cands s)
    (hchk : checkF n g r c = some (Except.ok g')) :
    (∃ d ∈ s, g' r c = Cell.fixed d) ∨ ∃ t ⊆ s, g' r c = Cell.cands t := by
  have hb : cellBase (g r c) = some s := by
    rw [hc]
    rfl
  have hsub : possibleSet g r c ⊆ s := by
    rw [possibleSet_eq hb]
    exact Finset.sdiff_subset
  rcases possible_trichotomy g r c with ⟨d, hp⟩ | hemp | ⟨hcard, hemp⟩
  · rw [checkF_eq_commit n hb hp] at hchk
    refine Or.inl ⟨d, hsub (by rw [hp]; exact Finset.mem_singleton_self d), ?_⟩
    have := (solve_mono n).2 _ _ hchk ((r, c) : Pos) d (setCell_self g r c _)
    exact this
  · rw [checkF_eq_error n hb hemp] at hchk
    exact absurd hchk (by simp)
  · rw [checkF_eq_store n hb hcard hemp] at hchk
    have hne : setCell g r c (Cell.cands (possibleSet g r c)) = g' := by
      simp_all
    subst hne
    exact Or.inr ⟨possibleSet g r c, hsub, setCell_self g r c _⟩

/-- Witness for C10: on `gC10w` the cell (0,0) stores `{3, 9}`; `check`
commits the digit 3, which is drawn from the stored set. -/
theorem claimC10_shrink_witness :
    gC10w 0 0 = Cell.cands {3, 9} ∧
      checkF 1 gC10w 0 0 = some (Except.ok (setCell gC10w 0 0 (Cell.fixed 3))) ∧
      ((∃ d ∈ ({3, 9} : Finset Nat),
          setCell gC10w 0 0 (Cell.fixed 3) 0 0 = Cell.fixed d) ∨
        ∃ t ⊆ ({3, 9} : Finset Nat),
          setCell gC10w 0 0 (Cell.fixed 3) 0 0 = Cell.cands t) := by
  have hchk : checkF 1 gC10w 0 0 =
      some (Except.ok (setCell gC10w 0 0 (Cell.fixed 3))) := sresEqB_eq (by decide)
  exact ⟨by decide, hchk, claimC10_shrink 1 gC10w 0 0 {3, 9} _ (by decide) hchk⟩

end SudokuPy
